import Mathlib

/-!
Verification of the Excel-score-query matching engine.

This file gives a shallow embedding of the data-matching core of the
repository (`src/services/configurable_data_matcher.py`,
`src/services/fast_data_matcher.py`, `src/services/data_matcher.py`,
`src/services/processing_engine.py`, `src/services/data_validator.py`)
and proves or refutes the specification claims about it.

Modelling conventions:
* A pandas cell is either missing/NaN (`Cell.na`) or a string value
  (`Cell.str`).  Python's `str()` of a non-string scalar is modelled as the
  string itself; `str()` of NaN (as produced by `.astype(str)` or by
  `str(row.get(...))`) is the literal string "nan".
* A row is an association list from column names to cells; a DataFrame is a
  column-name list plus a row list.  `row[col]` on a rectangular frame whose
  column set contains `col` always yields a cell (possibly NaN), so a key
  absent from a row is read as NaN.
* Python dicts are modelled as insertion-ordered association lists.
* Exceptions are modelled with `Except`; matched candidate rows are
  identified by their row positions in the candidate table (the source
  materializes `interview_df.iloc[positions]`, which is determined by the
  positions together with the table).
-/

namespace ExcelQuery

/-- Python `str.strip()` on the character list of a string: drop leading and
trailing whitespace. -/
def trimChars (l : List Char) : List Char :=
  ((l.dropWhile Char.isWhitespace).reverse.dropWhile Char.isWhitespace).reverse

/-- Python `str.strip()`. -/
def pyStrip (s : String) : String :=
  String.mk (trimChars s.data)

/-- Python `str.lower()` (character-wise lowering). -/
def pyLower (s : String) : String :=
  String.mk (s.data.map Char.toLower)

/-- A spreadsheet/pandas cell: missing (NaN) or a string-valued scalar. -/
inductive Cell where
  | na : Cell
  | str (s : String) : Cell
deriving DecidableEq, Repr

/-- Python `str(value)` as applied to a cell that may be NaN (pandas
`astype(str)` renders NaN as the string "nan"). -/
def Cell.astypeStr : Cell → String
  | .na => "nan"
  | .str s => s

/-- The value read by `str(x) if pd.notna(x) else ""` in
`ConfigurableDataMatcher`. -/
def Cell.strIfNotna : Cell → String
  | .na => ""
  | .str s => s

/-- The value read by `str(value).strip() if pd.notna(value) else ""` in
`FastDataMatcher.build_indices`. -/
def Cell.normStr : Cell → String
  | .na => ""
  | .str s => pyStrip s

/-- Association-list lookup (Python `dict.get`, returning `none` when the
key is absent). -/
def alistGet? {α : Type} : List (String × α) → String → Option α
  | [], _ => none
  | (k', v) :: rest, k => if k' = k then some v else alistGet? rest k

/-- Append one index to the list stored under a key, creating the key at the
end when absent (the `if str_value not in d: d[str_value] = []` +
`d[str_value].append(idx)` idiom of `build_indices`). -/
def alistAppend : List (String × List Nat) → String → Nat → List (String × List Nat)
  | [], k, i => [(k, [i])]
  | (k', v) :: rest, k, i =>
    if k' = k then (k', v ++ [i]) :: rest else (k', v) :: alistAppend rest k i

/-- Python dict assignment `d[k] = v`: overwrite in place, or insert at the
end when the key is new. -/
def alistSet {α : Type} : List (String × α) → String → α → List (String × α)
  | [], k, v => [(k, v)]
  | (k', v') :: rest, k, v =>
    if k' = k then (k', v) :: rest else (k', v') :: alistSet rest k v

/-- A data row: an association list from column names to cells. -/
def Row : Type := List (String × Cell)

instance : DecidableEq Row := by
  unfold Row
  infer_instance

/-- Lookup of a cell in a row. -/
def Row.get? (r : Row) (c : String) : Option Cell :=
  alistGet? r c

/-- The cell stored in a row under a column of a rectangular frame: an
absent key is read as NaN. -/
def Row.cell (r : Row) (c : String) : Cell :=
  (r.get? c).getD .na

/-- A tabular dataset: ordered column names and ordered rows. -/
structure DataFrame where
  cols : List String
  rows : List Row

/-! ## ConfigurableDataMatcher (`src/services/configurable_data_matcher.py`) -/

/-- The `match_details` payload of a `ConfigurableMatchResult`, as a tagged
variant: the `{'no_conditions': ...}` dictionary returned when every mapped
position value is blank, the per-condition `exact_...` diagnostics recorded
on success, and the `{'no_match': ..., 'conditions_checked': ...,
'match_conditions': ...}` dictionary recorded when the conjunctive filter
comes back empty. -/
inductive CfgMatchDetails where
  | noConditions : CfgMatchDetails
  | exactDetails (conds : List (String × String)) : CfgMatchDetails
  | noMatch (conditionsChecked : Nat) (conds : List (String × String)) : CfgMatchDetails
deriving DecidableEq, Repr

/-- Model of `ConfigurableMatchResult`.  `interview_rows` of the source (the
matched candidate rows, in candidate-table order) is represented by
`interviewIdx`, the positions of those rows in the candidate table. -/
structure ConfigurableMatchResult where
  position_row : Row
  interviewIdx : List Nat
  match_score : ℚ
  match_details : CfgMatchDetails
  matched : Bool
deriving DecidableEq

/-- The active match conditions built by `_find_matches_for_position`:
for each `(pos_col, int_col)` mapping entry, read
`str(pos_row[pos_col]) if pd.notna(...) else ""` and keep `(int_col, value)`
only when the value is non-empty. -/
def matchConditions (mappings : List (String × String)) (posRow : Row) :
    List (String × String) :=
  mappings.filterMap fun pi =>
    let v := (posRow.cell pi.1).strIfNotna
    if v = "" then none else some (pi.2, v)

/-- One conjunct of the pandas mask: a condition `(int_col, v)` restricts a
row only when `int_col` is a column of the candidate table, in which case
the row passes when `astype(str)` of its cell equals `v`. -/
def rowPassesCond (cols : List String) (r : Row) (cond : String × String) : Bool :=
  !(cols.contains cond.1) || ((r.cell cond.1).astypeStr == cond.2)

/-- The conjunctive (AND) filter of `_find_matches_for_position`: the mask
starts all-true and is intersected with each condition's column mask. -/
def rowPassesAll (cols : List String) (conds : List (String × String)) (r : Row) : Bool :=
  conds.all (rowPassesCond cols r)

/-- Model of `ConfigurableDataMatcher._find_matches_for_position`: build the
active conditions; with no active condition return the unmatched
`no_conditions` result; otherwise filter the candidate table conjunctively
and return all surviving rows (score 1.0) or the unmatched `no_match`
result. -/
def findMatchesForPosition (mappings : List (String × String)) (posRow : Row)
    (df : DataFrame) : ConfigurableMatchResult :=
  let conds := matchConditions mappings posRow
  if conds = [] then
    { position_row := posRow, interviewIdx := [], match_score := 0,
      match_details := .noConditions, matched := false }
  else
    let idx := (List.range df.rows.length).filter fun i =>
      rowPassesAll df.cols conds ((df.rows.getD i []))
    if idx = [] then
      { position_row := posRow, interviewIdx := [], match_score := 0,
        match_details := .noMatch conds.length conds, matched := false }
    else
      { position_row := posRow, interviewIdx := idx, match_score := 1,
        match_details := .exactDetails conds, matched := true }

/-- Errors raised by `ConfigurableDataMatcher` before matching begins. -/
inductive CfgError where
  | emptyMappings : CfgError
  | invalidEntry (posCol intCol : String) : CfgError
  | missingPositionCols (cols : List String) : CfgError
  | missingInterviewCols (cols : List String) : CfgError
deriving DecidableEq, Repr

/-- Model of `ConfigurableDataMatcher._validate_column_mappings`: an empty
mapping, or an entry whose key or value is the empty string, raises a
`ConfigurableDataMatchingError`. -/
def validateColumnMappings (mappings : List (String × String)) : Except CfgError Unit :=
  if mappings.isEmpty then .error .emptyMappings
  else
    match mappings.find? (fun pi => pi.1 == "" || pi.2 == "") with
    | some pi => .error (.invalidEntry pi.1 pi.2)
    | none => .ok ()

/-- Model of a constructed `ConfigurableDataMatcher` object: the validated
column mappings, the fuzzy threshold, and the stored match-result list. -/
structure ConfigurableDataMatcher where
  column_mappings : List (String × String)
  fuzzy_threshold : ℚ
  match_results : List ConfigurableMatchResult

/-- Model of `ConfigurableDataMatcher.__init__`: validate the column
mappings and, on success, return the matcher with an empty stored
match-result list.  A validation failure propagates the exception and no
matcher object exists. -/
def mkConfigurableDataMatcher (mappings : List (String × String)) (thr : ℚ) :
    Except CfgError ConfigurableDataMatcher :=
  match validateColumnMappings mappings with
  | .error e => .error e
  | .ok _ => .ok ⟨mappings, thr, []⟩

/-- Model of `ConfigurableDataMatcher._validate_columns_exist`: every mapped
position column must be a column of the position table and every mapped
interview column a column of the interview table. -/
def validateColumnsExist (mappings : List (String × String))
    (posDf intDf : DataFrame) : Except CfgError Unit :=
  let missingPos := (mappings.map Prod.fst).filter fun c => !(posDf.cols.contains c)
  if missingPos ≠ [] then .error (.missingPositionCols missingPos)
  else
    let missingInt := (mappings.map Prod.snd).filter fun c => !(intDf.cols.contains c)
    if missingInt ≠ [] then .error (.missingInterviewCols missingInt)
    else .ok ()

/-- Model of `ConfigurableDataMatcher.match_data`: validate column
existence, clear the stored results, match every position row in order, and
store and return the fresh result list. -/
def ConfigurableDataMatcher.matchData (m : ConfigurableDataMatcher)
    (posDf intDf : DataFrame) :
    Except CfgError (ConfigurableDataMatcher × List ConfigurableMatchResult) :=
  match validateColumnsExist m.column_mappings posDf intDf with
  | .error e => .error e
  | .ok _ =>
    let results := posDf.rows.map fun r =>
      findMatchesForPosition m.column_mappings r intDf
    .ok ({ m with match_results := results }, results)

/-! ## FastDataMatcher (`src/services/fast_data_matcher.py`) -/

/-- Per-column value index: normalized string value mapped to the list of
candidate row positions holding it. -/
def ColIndex : Type := List (String × List Nat)

/-- The matcher's index store `self.interview_indices`: interview column
name mapped to its per-column value index. -/
def Indices : Type := List (String × ColIndex)

instance : DecidableEq ColIndex := by
  unfold ColIndex
  infer_instance

instance : DecidableEq Indices := by
  unfold Indices
  infer_instance

/-- The inner loop of `FastDataMatcher.build_indices` over one column:
`for idx, value in enumerate(interview_df[int_col])`, appending `idx` under
`str(value).strip()` unless that normalized value is empty. -/
def buildColIndexFrom (i : Nat) : List Cell → ColIndex → ColIndex
  | [], acc => acc
  | c :: rest, acc =>
    buildColIndexFrom (i + 1) rest
      (if c.normStr = "" then acc else alistAppend acc c.normStr i)

/-- The index `build_indices` constructs for one interview column. -/
def buildColIndex (df : DataFrame) (intCol : String) : ColIndex :=
  buildColIndexFrom 0 (df.rows.map fun r => r.cell intCol) []

/-- Model of `FastDataMatcher.build_indices`: for each mapping entry whose
interview column exists in the candidate table, assign that column's fresh
value index into the store (entries for other columns are left alone, and a
mapped column absent from the table is skipped). -/
def buildIndices (mappings : List (String × String)) (df : DataFrame)
    (store : Indices) : Indices :=
  mappings.foldl
    (fun acc pi =>
      if df.cols.contains pi.2 then alistSet acc pi.2 (buildColIndex df pi.2) else acc)
    store

/-- The position-side value read by `_match_single_position_fast`:
`str(pos_row.get(pos_col, '')).strip()`. -/
def fastPosValue (posRow : Row) (posCol : String) : String :=
  pyStrip (match posRow.get? posCol with
    | none => ""
    | some c => c.astypeStr)

/-- The active conditions of `_match_single_position_fast`: each mapping
entry contributes `(int_col, value)` unless the stripped position value is
empty or the string "nan". -/
def fastConditions (mappings : List (String × String)) (posRow : Row) :
    List (String × String) :=
  mappings.filterMap fun pi =>
    let v := fastPosValue posRow pi.1
    if v = "" || v = "nan" then none else some (pi.2, v)

/-- The accumulation loop of `_match_single_position_fast`:
`candidate_indices` starts as `None`; each condition whose interview column
is present in the index store intersects the accumulated set with that
column's index list for the value (an empty list when the value is not
indexed), and the loop breaks as soon as the intersection becomes empty. -/
def fastAccum (store : Indices) : Option (Finset ℕ) → List (String × String) → Option (Finset ℕ)
  | acc, [] => acc
  | acc, cond :: rest =>
    match alistGet? store cond.1 with
    | none => fastAccum store acc rest
    | some colIdx =>
      let l := ((alistGet? colIdx cond.2).getD []).toFinset
      let s := match acc with
        | none => l
        | some s₀ => s₀ ∩ l
      if s = ∅ then some s else fastAccum store (some s) rest

/-- The final `candidate_indices` value computed by
`_match_single_position_fast` for one position row. -/
def fastCandidateIndices (mappings : List (String × String)) (store : Indices)
    (posRow : Row) : Option (Finset ℕ) :=
  fastAccum store none (fastConditions mappings posRow)

/-- Model of `FastMatchResult`.  The source materializes
`interview_df.iloc[list(candidate_indices)]`; the result here carries the
candidate-row positions (`interviewIdx`) together with the rows fetched from
the supplied table at those positions (`interview_rows`). -/
structure FastMatchResult where
  position_row : Row
  interviewIdx : Finset ℕ
  interview_rows : List Row
  match_score : ℚ
  matched : Bool
deriving DecidableEq

/-- The exception `_match_single_position_fast` can raise: `indexError`
models the `IndexError` of `interview_df.iloc[list(candidate_indices)]`
when some stored candidate position is out of bounds for the supplied
table (possible only when the table differs from the one the index was
built from); nothing in `match_data_fast` catches it. -/
inductive FastError where
  | indexError : FastError
deriving DecidableEq, Repr

/-- Model of `FastDataMatcher._match_single_position_fast`: the position is
matched exactly when the accumulated candidate-index set is non-`None` and
non-empty (Python truthiness of `candidate_indices`); matched rows are
fetched from the supplied candidate table at the stored positions, raising
`IndexError` when any stored position is out of range of that table. -/
def matchSinglePositionFast (mappings : List (String × String)) (store : Indices)
    (posRow : Row) (df : DataFrame) : Except FastError FastMatchResult :=
  match fastCandidateIndices mappings store posRow with
  | some s =>
    if s = ∅ then
      .ok { position_row := posRow, interviewIdx := ∅, interview_rows := [],
            match_score := 0, matched := false }
    else if ∀ i ∈ s, i < df.rows.length then
      .ok { position_row := posRow, interviewIdx := s,
            interview_rows :=
              ((List.range df.rows.length).filter (fun i => i ∈ s)).map fun i =>
                df.rows.getD i [],
            match_score := 1, matched := true }
    else .error .indexError
  | none =>
    .ok { position_row := posRow, interviewIdx := ∅, interview_rows := [],
          match_score := 0, matched := false }

/-- The mutable state of a `FastDataMatcher` object: its column mappings
and its index store. -/
structure FastMatcherState where
  column_mappings : List (String × String)
  interview_indices : Indices
deriving DecidableEq

/-- Model of `FastDataMatcher.match_data_fast`: when the index store is
empty it is first rebuilt from the supplied candidate table; every position
row is then matched against the (possibly pre-existing) store, with matched
rows fetched from the supplied table.  A raised `IndexError` propagates out
of the loop uncaught (first failing position wins, `mapM` over `Except`),
with the store left as built.  The batching of the source loop only
controls progress logging and does not alter the result list. -/
def matchDataFast (st : FastMatcherState) (posDf intDf : DataFrame) :
    FastMatcherState × Except FastError (List FastMatchResult) :=
  let idxs :=
    if st.interview_indices = [] then buildIndices st.column_mappings intDf []
    else st.interview_indices
  ({ st with interview_indices := idxs },
   posDf.rows.mapM fun r => matchSinglePositionFast st.column_mappings idxs r intDf)

/-- Model of `FastDataMatcher.clear_indices`. -/
def clearIndices (st : FastMatcherState) : FastMatcherState :=
  { st with interview_indices := [] }

/-! ## Association-list lemmas -/

theorem alistGet?_append_self (l : List (String × List Nat)) (k : String) (i : Nat) :
    alistGet? (alistAppend l k i) k = some ((alistGet? l k).getD [] ++ [i]) := by
  induction l with
  | nil => simp [alistAppend, alistGet?]
  | cons hd tl ih =>
    obtain ⟨a, b⟩ := hd
    by_cases h : a = k
    · subst h
      simp [alistAppend, alistGet?]
    · simp [alistAppend, alistGet?, h, ih]

theorem alistGet?_append_ne (l : List (String × List Nat)) (k k' : String) (i : Nat)
    (h : k' ≠ k) : alistGet? (alistAppend l k i) k' = alistGet? l k' := by
  induction l with
  | nil =>
    have h' : ¬ k = k' := fun hc => h hc.symm
    simp [alistAppend, alistGet?, h']
  | cons hd tl ih =>
    obtain ⟨a, b⟩ := hd
    by_cases hh : a = k
    · subst hh
      have h' : ¬ a = k' := fun hc => h hc.symm
      simp [alistAppend, alistGet?, h']
    · simp [alistAppend, alistGet?, hh, ih]

theorem alistGet?_set_self {α : Type} (l : List (String × α)) (k : String) (v : α) :
    alistGet? (alistSet l k v) k = some v := by
  induction l with
  | nil => simp [alistSet, alistGet?]
  | cons hd tl ih =>
    obtain ⟨a, b⟩ := hd
    by_cases h : a = k
    · subst h
      simp [alistSet, alistGet?]
    · simp [alistSet, alistGet?, h, ih]

theorem alistGet?_set_ne {α : Type} (l : List (String × α)) (k k' : String) (v : α)
    (h : k' ≠ k) : alistGet? (alistSet l k v) k' = alistGet? l k' := by
  induction l with
  | nil =>
    have h' : ¬ k = k' := fun hc => h hc.symm
    simp [alistSet, alistGet?, h']
  | cons hd tl ih =>
    obtain ⟨a, b⟩ := hd
    by_cases hh : a = k
    · subst hh
      have h' : ¬ a = k' := fun hc => h hc.symm
      simp [alistSet, alistGet?, h']
    · simp [alistSet, alistGet?, hh, ih]

/-! ## Index-construction lemmas -/

/-- The row positions (starting from counter `i`) whose normalized cell
value is `v`, in dataset order: the reference behaviour the per-column
index is checked against. -/
def selIdx (i : Nat) (v : String) : List Cell → List Nat
  | [] => []
  | c :: rest =>
    if c.normStr = v then i :: selIdx (i + 1) v rest else selIdx (i + 1) v rest

theorem buildColIndexFrom_get (v : String) (hv : v ≠ "") :
    ∀ (cells : List Cell) (i : Nat) (acc : ColIndex),
      alistGet? (buildColIndexFrom i cells acc) v =
        match alistGet? acc v with
        | some xs => some (xs ++ selIdx i v cells)
        | none => if selIdx i v cells = [] then none else some (selIdx i v cells) := by
  intro cells
  induction cells with
  | nil =>
    intro i acc
    cases h : alistGet? acc v <;> simp [buildColIndexFrom, selIdx, h]
  | cons c rest ih =>
    intro i acc
    show alistGet? (buildColIndexFrom (i + 1) rest
        (if c.normStr = "" then acc else alistAppend acc c.normStr i)) v = _
    by_cases hc : c.normStr = ""
    · have hcv : ¬ c.normStr = v := by
        rw [hc]
        exact fun h => hv h.symm
      rw [if_pos hc, selIdx, if_neg hcv]
      exact ih (i + 1) acc
    · by_cases hcv : c.normStr = v
      · rw [if_neg hc, selIdx, if_pos hcv, hcv]
        rw [ih (i + 1) (alistAppend acc v i)]
        rw [alistGet?_append_self]
        cases h : alistGet? acc v with
        | some xs => simp
        | none => simp
      · rw [if_neg hc, selIdx, if_neg hcv]
        rw [ih (i + 1) (alistAppend acc c.normStr i)]
        rw [alistGet?_append_ne _ _ _ _ (fun h => hcv h.symm)]

theorem buildColIndexFrom_get_empty :
    ∀ (cells : List Cell) (i : Nat) (acc : ColIndex),
      alistGet? acc "" = none →
      alistGet? (buildColIndexFrom i cells acc) "" = none := by
  intro cells
  induction cells with
  | nil => intro i acc h; simpa [buildColIndexFrom] using h
  | cons c rest ih =>
    intro i acc h
    by_cases hc : c.normStr = ""
    · simp only [buildColIndexFrom, hc, if_pos rfl]
      exact ih (i + 1) acc h
    · simp only [buildColIndexFrom, if_neg hc]
      refine ih (i + 1) _ ?_
      rw [alistGet?_append_ne _ _ _ _ (fun hh => hc hh.symm)]
      exact h

theorem mem_selIdx (v : String) :
    ∀ (cells : List Cell) (i j : Nat),
      j ∈ selIdx i v cells ↔
        ∃ k, k < cells.length ∧ j = i + k ∧ (cells.getD k Cell.na).normStr = v := by
  intro cells
  induction cells with
  | nil => intro i j; simp [selIdx]
  | cons c rest ih =>
    intro i j
    constructor
    · intro hj
      by_cases hc : c.normStr = v
      · rw [selIdx, if_pos hc] at hj
        rcases List.mem_cons.mp hj with rfl | hj'
        · exact ⟨0, by simp, by omega, by simpa using hc⟩
        · obtain ⟨k, hk, hjk, hkv⟩ := (ih (i + 1) j).mp hj'
          exact ⟨k + 1, by simpa using hk, by omega, by simpa using hkv⟩
      · rw [selIdx, if_neg hc] at hj
        obtain ⟨k, hk, hjk, hkv⟩ := (ih (i + 1) j).mp hj
        exact ⟨k + 1, by simpa using hk, by omega, by simpa using hkv⟩
    · rintro ⟨k, hk, rfl, hkv⟩
      cases k with
      | zero =>
        have hc : c.normStr = v := by simpa using hkv
        rw [selIdx, if_pos hc]
        simp
      | succ k =>
        have hmem : i + 1 + k ∈ selIdx (i + 1) v rest :=
          (ih (i + 1) (i + 1 + k)).mpr ⟨k, by simpa using hk, rfl, by simpa using hkv⟩
        have heq : i + (k + 1) = i + 1 + k := by omega
        rw [heq]
        by_cases hc : c.normStr = v
        · rw [selIdx, if_pos hc]
          exact List.mem_cons_of_mem _ hmem
        · rw [selIdx, if_neg hc]
          exact hmem

theorem selIdx_ge (v : String) :
    ∀ (cells : List Cell) (i j : Nat), j ∈ selIdx i v cells → i ≤ j := by
  intro cells
  induction cells with
  | nil => intro i j h; simp [selIdx] at h
  | cons c rest ih =>
    intro i j h
    by_cases hc : c.normStr = v
    · simp only [selIdx, if_pos hc, List.mem_cons] at h
      cases h with
      | inl h => omega
      | inr h => have := ih (i + 1) j h; omega
    · simp only [selIdx, if_neg hc] at h
      have := ih (i + 1) j h
      omega

theorem selIdx_sorted (v : String) :
    ∀ (cells : List Cell) (i : Nat), (selIdx i v cells).Sorted (· < ·) := by
  intro cells
  induction cells with
  | nil => intro i; simp [selIdx]
  | cons c rest ih =>
    intro i
    by_cases hc : c.normStr = v
    · simp only [selIdx, if_pos hc]
      refine List.sorted_cons.mpr ⟨fun j hj => ?_, ih (i + 1)⟩
      have := selIdx_ge v rest (i + 1) j hj
      omega
    · simp only [selIdx, if_neg hc]
      exact ih (i + 1)

theorem buildIndices_get (df : DataFrame) (ic : String) :
    ∀ (mappings : List (String × String)) (store : Indices),
      alistGet? (buildIndices mappings df store) ic =
        if ∃ pi ∈ mappings, pi.2 = ic ∧ df.cols.contains pi.2 = true then
          some (buildColIndex df ic)
        else alistGet? store ic := by
  intro mappings
  induction mappings with
  | nil => intro store; simp [buildIndices]
  | cons m rest ih =>
    intro store
    have hstep : buildIndices (m :: rest) df store =
        buildIndices rest df
          (if df.cols.contains m.2 = true then alistSet store m.2 (buildColIndex df m.2)
           else store) := by
      simp [buildIndices]
    rw [hstep, ih]
    by_cases hex : ∃ pi ∈ rest, pi.2 = ic ∧ df.cols.contains pi.2 = true
    · rw [if_pos hex]
      obtain ⟨pi, hpi, hp⟩ := hex
      rw [if_pos ⟨pi, List.mem_cons_of_mem m hpi, hp⟩]
    · rw [if_neg hex]
      by_cases hm : m.2 = ic ∧ df.cols.contains m.2 = true
      · rw [if_pos hm.2]
        rw [if_pos ⟨m, List.mem_cons_self m rest, hm⟩]
        rw [hm.1, alistGet?_set_self]
      · have hnone : ¬ ∃ pi ∈ m :: rest, pi.2 = ic ∧ df.cols.contains pi.2 = true := by
          rintro ⟨pi, hpi, h1, h2⟩
          rcases List.mem_cons.mp hpi with rfl | hpi'
          · exact hm ⟨h1, h2⟩
          · exact hex ⟨pi, hpi', h1, h2⟩
        rw [if_neg hnone]
        by_cases hc : df.cols.contains m.2 = true
        · rw [if_pos hc]
          rcases eq_or_ne ic m.2 with rfl | hne
          · exact absurd ⟨rfl, hc⟩ hm
          · exact alistGet?_set_ne _ _ _ _ hne
        · rw [if_neg hc]

/-- The cell list `enumerate(interview_df[int_col])` iterates over. -/
def colCells (df : DataFrame) (ic : String) : List Cell :=
  df.rows.map fun r => r.cell ic

theorem colCells_getD (df : DataFrame) (ic : String) (k : Nat) :
    (colCells df ic).getD k Cell.na = (df.rows.getD k []).cell ic := by
  have h : Cell.na = Row.cell [] ic := rfl
  rw [colCells, h, List.getD_map]

theorem buildColIndex_get (df : DataFrame) (ic : String) (v : String) (hv : v ≠ "") :
    alistGet? (buildColIndex df ic) v =
      if selIdx 0 v (colCells df ic) = [] then none
      else some (selIdx 0 v (colCells df ic)) := by
  have h := buildColIndexFrom_get v hv (colCells df ic) 0 []
  simpa [buildColIndex, colCells, alistGet?] using h

theorem mem_buildColIndex (df : DataFrame) (ic : String) (v : String) (hv : v ≠ "")
    (j : Nat) :
    j ∈ (alistGet? (buildColIndex df ic) v).getD [] ↔
      j < df.rows.length ∧ ((df.rows.getD j []).cell ic).normStr = v := by
  have hmem : j ∈ selIdx 0 v (colCells df ic) ↔
      j < df.rows.length ∧ ((df.rows.getD j []).cell ic).normStr = v := by
    rw [mem_selIdx]
    constructor
    · rintro ⟨k, hk, rfl, hkv⟩
      rw [colCells_getD] at hkv
      refine ⟨by simpa [colCells] using hk, by simpa using hkv⟩
    · rintro ⟨hj, hjv⟩
      exact ⟨j, by simpa [colCells] using hj, by omega, by rw [colCells_getD]; exact hjv⟩
  rw [buildColIndex_get df ic v hv]
  by_cases hsel : selIdx 0 v (colCells df ic) = []
  · rw [if_pos hsel]
    simp only [Option.getD_none, List.not_mem_nil, false_iff]
    intro hc
    have := hmem.mpr hc
    rw [hsel] at this
    exact absurd this (List.not_mem_nil j)
  · rw [if_neg hsel]
    simpa using hmem

/-- C7 — For every candidate dataset and every mapped candidate-side column
present in it, `build_indices` stores that column's value index; for every
non-blank normalized value the index holds exactly the positions of the rows
whose stringified, trimmed cell value equals it, listed in candidate dataset
order (strictly increasing positions); values occurring nowhere have no key;
and blank/NaN cells are never indexed (no empty-string key exists). -/
theorem C7_build_indices_contents (mappings : List (String × String))
    (df : DataFrame) (pc ic : String) (hpi : (pc, ic) ∈ mappings)
    (hcol : df.cols.contains ic = true) :
    alistGet? (buildIndices mappings df []) ic = some (buildColIndex df ic) ∧
    (∀ v, v ≠ "" →
      (∀ j, j ∈ (alistGet? (buildColIndex df ic) v).getD [] ↔
        j < df.rows.length ∧ ((df.rows.getD j []).cell ic).normStr = v) ∧
      ((alistGet? (buildColIndex df ic) v).getD []).Sorted (· < ·) ∧
      (alistGet? (buildColIndex df ic) v = none ↔
        ∀ j, j < df.rows.length → ((df.rows.getD j []).cell ic).normStr ≠ v)) ∧
    alistGet? (buildColIndex df ic) "" = none := by
  refine ⟨?_, ?_, ?_⟩
  · rw [buildIndices_get]
    rw [if_pos ⟨(pc, ic), hpi, rfl, hcol⟩]
  · intro v hv
    refine ⟨mem_buildColIndex df ic v hv, ?_, ?_⟩
    · rw [buildColIndex_get df ic v hv]
      by_cases hsel : selIdx 0 v (colCells df ic) = []
      · simp [hsel]
      · rw [if_neg hsel]
        simpa using selIdx_sorted v (colCells df ic) 0
    · rw [buildColIndex_get df ic v hv]
      by_cases hsel : selIdx 0 v (colCells df ic) = []
      · rw [if_pos hsel]
        simp only [true_iff]
        intro j hj hjv
        have hmem := (mem_buildColIndex df ic v hv j).mpr ⟨hj, hjv⟩
        rw [buildColIndex_get df ic v hv, if_pos hsel] at hmem
        simp at hmem
      · rw [if_neg hsel]
        simp only [reduceCtorEq, false_iff, not_forall]
        obtain ⟨j, hj⟩ := List.exists_mem_of_ne_nil _ hsel
        have hmem := (mem_buildColIndex df ic v hv j).mp
          (by rw [buildColIndex_get df ic v hv, if_neg hsel]; simpa using hj)
        exact ⟨j, hmem.1, by simpa using hmem.2⟩
  · exact buildColIndexFrom_get_empty (colCells df ic) 0 [] rfl

/-- A tiny candidate table used to instantiate hypotheses of proved
theorems on concrete data: one mapped column "c" holding a padded value, a
NaN, and a plain value. -/
def witDf : DataFrame :=
  ⟨["c"], [[("c", Cell.str " A ")], [("c", Cell.na)], [("c", Cell.str "A")]]⟩

theorem C7_build_indices_contents_witness :
    (0 ∈ (alistGet? (buildColIndex witDf "c") "A").getD []) ∧
    (1 ∉ (alistGet? (buildColIndex witDf "c") "A").getD []) ∧
    alistGet? (buildColIndex witDf "c") "" = none := by
  have h := C7_build_indices_contents [("p", "c")] witDf "p" "c"
    (List.mem_cons_self _ _) (by decide)
  refine ⟨((h.2.1 "A" (by decide)).1 0).mpr (by decide), ?_, h.2.2⟩
  intro hc
  have := ((h.2.1 "A" (by decide)).1 1).mp hc
  revert this
  decide

/-- C2 — A position all of whose mapped position-side values are blank or
NaN produces the unmatched `no_conditions` result of
`_find_matches_for_position`: matched is false, the match score is 0.0, the
matched candidate list is empty, and the diagnostic detail is the
`no_conditions` payload, which is distinct from the `no_match`
("conditions evaluated, no candidates found") payload.  The model is a
total function, so no exception is raised for this case. -/
theorem C2_blank_values_give_no_conditions (mappings : List (String × String))
    (posRow : Row) (df : DataFrame)
    (h : ∀ pi ∈ mappings, ∀ c, posRow.get? pi.1 = some c →
      c = Cell.na ∨ c = Cell.str "") :
    findMatchesForPosition mappings posRow df =
      { position_row := posRow, interviewIdx := [], match_score := 0,
        match_details := .noConditions, matched := false } ∧
    ∀ n cs, (findMatchesForPosition mappings posRow df).match_details ≠
      CfgMatchDetails.noMatch n cs := by
  have hconds : matchConditions mappings posRow = [] := by
    rw [matchConditions, List.filterMap_eq_nil_iff]
    intro pi hpi
    rcases hget : posRow.get? pi.1 with _ | c
    · simp [Row.cell, hget, Cell.strIfNotna]
    · rcases h pi hpi c hget with rfl | rfl <;>
        simp [Row.cell, hget, Cell.strIfNotna]
  have hres : findMatchesForPosition mappings posRow df =
      { position_row := posRow, interviewIdx := [], match_score := 0,
        match_details := .noConditions, matched := false } := by
    simp [findMatchesForPosition, hconds]
  refine ⟨hres, ?_⟩
  intro n cs
  rw [hres]
  simp

theorem C2_blank_values_give_no_conditions_witness :
    (findMatchesForPosition [("p", "c")] [("p", Cell.na)] witDf).matched = false ∧
    (findMatchesForPosition [("p", "c")] [("p", Cell.na)] witDf).match_details =
      CfgMatchDetails.noConditions := by
  have hb : ∀ pi ∈ [("p", "c")], ∀ c,
      Row.get? [("p", Cell.na)] pi.1 = some c → c = Cell.na ∨ c = Cell.str "" := by
    intro pi hpi c hget
    have hpi' : pi = ("p", "c") := List.mem_singleton.mp hpi
    subst hpi'
    have hna : some Cell.na = some c := by
      simpa [Row.get?, alistGet?] using hget
    exact Or.inl (Option.some_inj.mp hna).symm
  have h := C2_blank_values_give_no_conditions [("p", "c")] [("p", Cell.na)] witDf hb
  rw [h.1]
  exact ⟨rfl, rfl⟩

/-- C6 — Constructing the configurable matcher with an empty column mapping,
or with a mapping containing an entry whose key or value is empty, raises a
configuration error before any matching begins (no matcher object is
produced), and a successfully constructed matcher starts with an empty
stored match-result list. -/
theorem C6_constructor_validates_mappings (mappings : List (String × String)) (thr : ℚ) :
    ((mappings = [] ∨ ∃ pi ∈ mappings, pi.1 = "" ∨ pi.2 = "") →
      ∀ m, mkConfigurableDataMatcher mappings thr ≠ Except.ok m) ∧
    (∀ m, mkConfigurableDataMatcher mappings thr = Except.ok m →
      m.match_results = []) := by
  constructor
  · rintro (rfl | ⟨pi, hpi, hbad⟩) m
    · simp [mkConfigurableDataMatcher, validateColumnMappings]
    · intro hok
      have hne : mappings.isEmpty = false := by
        cases mappings with
        | nil => simp at hpi
        | cons a l => rfl
      rcases hsome : mappings.find? (fun q => q.1 == "" || q.2 == "") with _ | q
      · have hfind : (mappings.find? (fun q => q.1 == "" || q.2 == "")).isSome := by
          rw [List.find?_isSome]
          refine ⟨pi, hpi, ?_⟩
          rcases hbad with hb | hb <;> simp [hb]
        rw [hsome] at hfind
        simp at hfind
      · simp [mkConfigurableDataMatcher, validateColumnMappings, hne, hsome] at hok
  · intro m hok
    unfold mkConfigurableDataMatcher validateColumnMappings at hok
    by_cases he : mappings.isEmpty
    · simp [he] at hok
    · rcases hsome : mappings.find? (fun q => q.1 == "" || q.2 == "") with _ | q <;>
        simp [he, hsome] at hok
      rw [← hok]

theorem C6_constructor_validates_mappings_witness :
    (mkConfigurableDataMatcher [("", "c")] 1 ≠
      Except.ok ⟨[("", "c")], 1, []⟩) ∧
    (∀ m, mkConfigurableDataMatcher [("a", "b")] 1 = Except.ok m →
      m.match_results = []) :=
  ⟨(C6_constructor_validates_mappings [("", "c")] 1).1
      (Or.inr ⟨("", "c"), List.mem_singleton.mpr rfl, Or.inl rfl⟩) _,
   (C6_constructor_validates_mappings [("a", "b")] 1).2⟩

/-- C10 — When the fast matcher's index store is non-empty at the start of
`match_data_fast`, the store is left unchanged (no rebuild): every position
is matched against the previously built index even when the newly supplied
candidate table differs from the one the index was built from, with matched
rows fetched from the new table at the stored row positions — which raises
`IndexError` (uncaught) when a stale stored position is out of range of the
new table, as `matchSinglePositionFast` makes explicit.  Only
`clear_indices` empties the store. -/
theorem C10_nonempty_store_is_not_rebuilt (st : FastMatcherState)
    (posDf intDf : DataFrame) (h : st.interview_indices ≠ []) :
    (matchDataFast st posDf intDf).1 = st ∧
    (matchDataFast st posDf intDf).2 =
      posDf.rows.mapM (fun r =>
        matchSinglePositionFast st.column_mappings st.interview_indices r intDf) ∧
    (clearIndices st).interview_indices = [] := by
  have hif : (if st.interview_indices = [] then buildIndices st.column_mappings intDf []
      else st.interview_indices) = st.interview_indices := if_neg h
  refine ⟨?_, ?_, rfl⟩
  · simp [matchDataFast, hif]
  · simp [matchDataFast, hif]

/-- The index store built from the `witDf` candidate table. -/
def witStore : Indices := buildIndices [("p", "c")] witDf []

/-- A second candidate table, different from `witDf`, supplied after the
index store has already been built. -/
def witDf2 : DataFrame := ⟨["c"], [[("c", Cell.str "B")]]⟩

theorem C10_nonempty_store_is_not_rebuilt_witness :
    (matchDataFast ⟨[("p", "c")], witStore⟩ ⟨["p"], [[("p", Cell.str "A")]]⟩
      witDf2).1 = ⟨[("p", "c")], witStore⟩ ∧
    (matchDataFast ⟨[("p", "c")], witStore⟩ ⟨["p"], [[("p", Cell.str "A")]]⟩
      witDf2).2 = Except.error FastError.indexError ∧
    (clearIndices ⟨[("p", "c")], witStore⟩).interview_indices = [] := by
  have h := C10_nonempty_store_is_not_rebuilt ⟨[("p", "c")], witStore⟩
    ⟨["p"], [[("p", Cell.str "A")]]⟩ witDf2 (by decide)
  refine ⟨h.1, ?_, h.2.2⟩
  rw [h.2.1]
  rfl

/-! ## ProcessingEngine (`src/services/processing_engine.py`) -/

/-- Python `int()` on a string: optional sign and decimal digits, with
surrounding whitespace stripped; `none` when unparsable. -/
def digitsToNat : List Char → Option Nat
  | [] => none
  | l =>
    if l.all Char.isDigit then
      some (l.foldl (fun acc c => acc * 10 + (c.toNat - '0'.toNat)) 0)
    else none

/-- Python `int()` applied to a string. -/
def pyInt? (s : String) : Option Int :=
  match trimChars s.data with
  | '-' :: rest => (digitsToNat rest).map fun n => -(n : Int)
  | '+' :: rest => (digitsToNat rest).map fun n => (n : Int)
  | l => (digitsToNat l).map fun n => (n : Int)

/-- Python `position.get(k1, position.get(k2, ''))` stringified. -/
def Row.getStr2 (r : Row) (k1 k2 : String) : String :=
  match r.get? k1 with
  | some c => c.astypeStr
  | none =>
    match r.get? k2 with
    | some c => c.astypeStr
    | none => ""

/-- Python `position.get(k, '')` stringified. -/
def Row.getStr1 (r : Row) (k : String) : String :=
  match r.get? k with
  | some c => c.astypeStr
  | none => ""

/-- The recruit-count extraction
`int(position.get('招考人数', 0)) if position.get('招考人数') else 0` of
`_process_unmatched_position`.  An `int()` failure on a malformed value
would be caught by the caller's per-position try/except (the position is
then skipped with a warning); the embedding totalizes that parse to 0. -/
def recruitCountOf (r : Row) : Int :=
  match r.get? "招考人数" with
  | some (Cell.str s) => if s = "" then 0 else (pyInt? s).getD 0
  | some Cell.na => 0
  | none => 0

/-- Model of the `PositionMapping` dataclass fields consumed by
`_process_matched_position`. -/
structure PositionMapping where
  position_code : String
  position_name : String
  department : String
  department_name : String
  recruit_count : Int
  interview_position : String
deriving DecidableEq

/-- A normalized interview candidate record as consumed by
`_process_matched_position`: `score` is `some q` exactly when the raw score
cell is non-`None` and `float(str(score).strip())` parses (to `q`), and
`none` when the score is missing or unparsable. -/
structure CandidateRec where
  name : String
  position_name : String
  score : Option ℚ
deriving DecidableEq

/-- Model of the `PositionScoreResult` dataclass (the free-text `notes`
field, a log-style message, is omitted). -/
structure PositionScoreResult where
  position_code : String
  position_name : String
  department : String
  department_name : String
  recruit_count : Int
  candidate_count : Nat
  min_score : Option ℚ
  status : String
  all_scores : List ℚ
deriving DecidableEq

/-- Python `sorted(scores, reverse=True)` via insertion sort. -/
def insertDesc (x : ℚ) : List ℚ → List ℚ
  | [] => [x]
  | y :: ys => if x > y then x :: y :: ys else y :: insertDesc x ys

/-- Descending sort of the score list. -/
def sortDesc (l : List ℚ) : List ℚ :=
  l.foldr insertDesc []

/-- The candidates resolved for a matched position:
`[i for i in interview_data if i.get('position_name') == mapping.interview_position]`. -/
def positionCandidates (mapping : PositionMapping) (data : List CandidateRec) :
    List CandidateRec :=
  data.filter fun c => c.position_name == mapping.interview_position

/-- Model of `ProcessingEngine._process_matched_position`: no candidate in
the interview list gives the "无面试人员" result; candidates whose scores
all fail to parse give the "数据异常" result; otherwise the "正常" result
lists all valid scores in descending order.  Every branch sets
`min_score = None`. -/
def processMatchedPosition (mapping : PositionMapping) (data : List CandidateRec) :
    PositionScoreResult :=
  let cands := positionCandidates mapping data
  if cands = [] then
    { position_code := mapping.position_code, position_name := mapping.position_name,
      department := mapping.department, department_name := mapping.department_name,
      recruit_count := mapping.recruit_count, candidate_count := 0,
      min_score := none, status := "无面试人员", all_scores := [] }
  else
    let scores := cands.filterMap CandidateRec.score
    if scores = [] then
      { position_code := mapping.position_code, position_name := mapping.position_name,
        department := mapping.department, department_name := mapping.department_name,
        recruit_count := mapping.recruit_count, candidate_count := cands.length,
        min_score := none, status := "数据异常", all_scores := [] }
    else
      { position_code := mapping.position_code, position_name := mapping.position_name,
        department := mapping.department, department_name := mapping.department_name,
        recruit_count := mapping.recruit_count, candidate_count := scores.length,
        min_score := none, status := "正常", all_scores := sortDesc scores }

/-- Model of `ProcessingEngine._process_unmatched_position`. -/
def processUnmatchedPosition (position : Row) : PositionScoreResult :=
  { position_code := position.getStr2 "职位代码" "岗位代码",
    position_name := position.getStr2 "招考职位" "岗位名称",
    department := position.getStr1 "用人司局",
    department_name := position.getStr1 "部门名称",
    recruit_count := recruitCountOf position,
    candidate_count := 0, min_score := none, status := "无法匹配", all_scores := [] }

/-- A position entering `_calculate_min_scores`: either a matched mapping or
an unmatched raw position row. -/
inductive PositionInfo where
  | matched (m : PositionMapping) : PositionInfo
  | unmatched (p : Row) : PositionInfo

/-- Dispatch of `_calculate_min_scores` on one position. -/
def processPositionInfo : PositionInfo → List CandidateRec → PositionScoreResult
  | .matched m, data => processMatchedPosition m data
  | .unmatched p, _ => processUnmatchedPosition p

/-- Model of `ProcessingEngine._calculate_min_scores`: all matched mappings
are processed first, then all unmatched positions, in order. -/
def calculateMinScores (mappings : List PositionMapping) (unmatched : List Row)
    (data : List CandidateRec) : List PositionScoreResult :=
  (mappings.map fun m => processMatchedPosition m data) ++
    unmatched.map processUnmatchedPosition

/-- The score-statistics block of `_generate_statistics`. -/
structure ScoreStats where
  min_score : ℚ
  max_score : ℚ
  avg_score : ℚ
  score_count : Nat
deriving DecidableEq

/-- The statistics record assembled by `_generate_statistics` (the fields
derived from the per-position score results). -/
structure ProcessingStatistics where
  total_positions : Nat
  normal_positions : Nat
  no_interview_positions : Nat
  unmatched_positions : Nat
  error_positions : Nat
  score_stats : Option ScoreStats
  total_candidates : Nat
  positions_with_candidates : Nat
deriving DecidableEq

/-- Model of `ProcessingEngine._generate_statistics`: counts per status,
score statistics over the non-`None` `min_score` fields (empty when no
result carries one), and candidate-count aggregates. -/
def generateStatistics (results : List PositionScoreResult) : ProcessingStatistics :=
  let valid_scores := results.filterMap PositionScoreResult.min_score
  { total_positions := results.length,
    normal_positions := (results.filter fun r => r.status == "正常").length,
    no_interview_positions := (results.filter fun r => r.status == "无面试人员").length,
    unmatched_positions := (results.filter fun r => r.status == "无法匹配").length,
    error_positions := (results.filter fun r => r.status == "数据异常").length,
    score_stats :=
      match valid_scores with
      | [] => none
      | x :: xs =>
        some { min_score := xs.foldl min x, max_score := xs.foldl max x,
               avg_score := (x :: xs).sum / ((x :: xs).length : ℚ),
               score_count := (x :: xs).length },
    total_candidates := (results.map PositionScoreResult.candidate_count).sum,
    positions_with_candidates := (results.filter fun r => 0 < r.candidate_count).length }

theorem processMatchedPosition_status_cases (m : PositionMapping)
    (data : List CandidateRec) :
    ((processMatchedPosition m data).status = "无面试人员" ↔
      positionCandidates m data = []) ∧
    ((processMatchedPosition m data).status = "数据异常" ↔
      (positionCandidates m data ≠ [] ∧
       (positionCandidates m data).filterMap CandidateRec.score = [])) ∧
    ((processMatchedPosition m data).status = "正常" ↔
      (positionCandidates m data).filterMap CandidateRec.score ≠ []) ∧
    (processMatchedPosition m data).status ≠ "无法匹配" := by
  by_cases h1 : positionCandidates m data = []
  · have hs : (processMatchedPosition m data).status = "无面试人员" := by
      simp [processMatchedPosition, h1]
    have h2 : (positionCandidates m data).filterMap CandidateRec.score = [] := by
      rw [h1]
      rfl
    rw [hs]
    refine ⟨by simp [h1], ?_, ?_, by decide⟩
    · constructor
      · intro hc
        exact absurd hc (by decide)
      · rintro ⟨hne, _⟩
        exact absurd h1 hne
    · constructor
      · intro hc
        exact absurd hc (by decide)
      · intro hne
        exact absurd h2 hne
  · by_cases h2 : (positionCandidates m data).filterMap CandidateRec.score = []
    · have hs : (processMatchedPosition m data).status = "数据异常" := by
        simp [processMatchedPosition, h1, h2]
      rw [hs]
      refine ⟨?_, by simp [h1, h2], ?_, by decide⟩
      · constructor
        · intro hc
          exact absurd hc (by decide)
        · intro hc
          exact absurd hc h1
      · constructor
        · intro hc
          exact absurd hc (by decide)
        · intro hne
          exact absurd h2 hne
    · have hs : (processMatchedPosition m data).status = "正常" := by
        simp [processMatchedPosition, h1, h2]
      rw [hs]
      refine ⟨?_, ?_, by simp [h2], by decide⟩
      · constructor
        · intro hc
          exact absurd hc (by decide)
        · intro hc
          exact absurd hc h1
      · constructor
        · intro hc
          exact absurd hc (by decide)
        · rintro ⟨_, hc⟩
          exact absurd hc h2

/-- C3 — Every per-position score result carries exactly one of the four
statuses 无法匹配 (unmatched), 无面试人员 (no candidates), 数据异常 (data
anomaly), 正常 (normal), assigned with this priority: unmatched positions
always get 无法匹配; a matched position gets 无面试人员 exactly when its
resolved candidate set is empty, 数据异常 exactly when candidates exist but
none has a parseable score, and 正常 exactly when at least one valid score
is present. -/
theorem C3_status_is_four_way_priority (info : PositionInfo)
    (data : List CandidateRec) :
    ((processPositionInfo info data).status = "无法匹配" ∨
     (processPositionInfo info data).status = "无面试人员" ∨
     (processPositionInfo info data).status = "数据异常" ∨
     (processPositionInfo info data).status = "正常") ∧
    ((processPositionInfo info data).status = "无法匹配" ↔
      ∃ p, info = PositionInfo.unmatched p) ∧
    ((processPositionInfo info data).status = "无面试人员" ↔
      ∃ m, info = PositionInfo.matched m ∧ positionCandidates m data = []) ∧
    ((processPositionInfo info data).status = "数据异常" ↔
      ∃ m, info = PositionInfo.matched m ∧ positionCandidates m data ≠ [] ∧
        (positionCandidates m data).filterMap CandidateRec.score = []) ∧
    ((processPositionInfo info data).status = "正常" ↔
      ∃ m, info = PositionInfo.matched m ∧
        (positionCandidates m data).filterMap CandidateRec.score ≠ []) := by
  cases info with
  | matched m =>
    have h := processMatchedPosition_status_cases m data
    have hd : processPositionInfo (PositionInfo.matched m) data =
        processMatchedPosition m data := rfl
    rw [hd]
    refine ⟨?_, ?_, ?_, ?_, ?_⟩
    · by_cases h1 : positionCandidates m data = []
      · exact Or.inr (Or.inl (h.1.mpr h1))
      · by_cases h2 : (positionCandidates m data).filterMap CandidateRec.score = []
        · exact Or.inr (Or.inr (Or.inl (h.2.1.mpr ⟨h1, h2⟩)))
        · exact Or.inr (Or.inr (Or.inr (h.2.2.1.mpr h2)))
    · constructor
      · intro hc
        exact absurd hc h.2.2.2
      · rintro ⟨p, hp⟩
        exact absurd hp (by simp)
    · rw [h.1]
      constructor
      · intro hc
        exact ⟨m, rfl, hc⟩
      · rintro ⟨m', hm, hc⟩
        cases hm
        exact hc
    · rw [h.2.1]
      constructor
      · intro hc
        exact ⟨m, rfl, hc⟩
      · rintro ⟨m', hm, hc⟩
        cases hm
        exact hc
    · rw [h.2.2.1]
      constructor
      · intro hc
        exact ⟨m, rfl, hc⟩
      · rintro ⟨m', hm, hc⟩
        cases hm
        exact hc
  | unmatched p =>
    have hs : (processPositionInfo (PositionInfo.unmatched p) data).status = "无法匹配" := rfl
    rw [hs]
    refine ⟨Or.inl rfl, ⟨fun _ => ⟨p, rfl⟩, fun _ => rfl⟩, ?_, ?_, ?_⟩
    · constructor
      · intro hc
        exact absurd hc (by decide)
      · rintro ⟨m', hm, _⟩
        exact absurd hm (by simp)
    · constructor
      · intro hc
        exact absurd hc (by decide)
      · rintro ⟨m', hm, _⟩
        exact absurd hm (by simp)
    · constructor
      · intro hc
        exact absurd hc (by decide)
      · rintro ⟨m', hm, _⟩
        exact absurd hm (by simp)

theorem processPositionInfo_min_score_none (info : PositionInfo)
    (data : List CandidateRec) :
    (processPositionInfo info data).min_score = none := by
  cases info with
  | matched m =>
    show (processMatchedPosition m data).min_score = none
    simp only [processMatchedPosition]
    split_ifs <;> rfl
  | unmatched p => rfl

theorem status_anomaly_bool (m : PositionMapping) (data : List CandidateRec) :
    ((processMatchedPosition m data).status == "数据异常") =
      decide (positionCandidates m data ≠ [] ∧
        (positionCandidates m data).filterMap CandidateRec.score = []) := by
  by_cases h1 : positionCandidates m data = []
  · have hs := (processMatchedPosition_status_cases m data).1.mpr h1
    rw [hs]
    simp [h1]
  · by_cases h2 : (positionCandidates m data).filterMap CandidateRec.score = []
    · have hs := (processMatchedPosition_status_cases m data).2.1.mpr ⟨h1, h2⟩
      rw [hs]
      simp [h1, h2]
    · have hs := (processMatchedPosition_status_cases m data).2.2.1.mpr h2
      rw [hs]
      simp [h1, h2]

theorem status_no_interview_bool (m : PositionMapping) (data : List CandidateRec) :
    ((processMatchedPosition m data).status == "无面试人员") =
      decide (positionCandidates m data = []) := by
  by_cases h1 : positionCandidates m data = []
  · have hs := (processMatchedPosition_status_cases m data).1.mpr h1
    rw [hs]
    simp [h1]
  · by_cases h2 : (positionCandidates m data).filterMap CandidateRec.score = []
    · have hs := (processMatchedPosition_status_cases m data).2.1.mpr ⟨h1, h2⟩
      rw [hs]
      simp [h1]
    · have hs := (processMatchedPosition_status_cases m data).2.2.1.mpr h2
      rw [hs]
      simp [h1]

/-- C4, counterexample — a matched position resolving to one candidate with
the valid score 85 is reported with status 正常 and score list [85], yet the
whole-dataset statistics generated from that result carry no score block at
all (`score_stats = none`): the statistics are computed over the
per-position `min_score` fields, which `_process_matched_position` always
sets to `None`, so min/max/avg are NOT reported over the resolved scores of
positions that have a valid score, contradicting the claim. -/
theorem C4_counterexample_stats_empty_despite_valid_score :
    (processMatchedPosition ⟨"001", "Clerk", "D", "DN", 1, "Clerk"⟩
      [⟨"A", "Clerk", some 85⟩]).status = "正常" ∧
    (processMatchedPosition ⟨"001", "Clerk", "D", "DN", 1, "Clerk"⟩
      [⟨"A", "Clerk", some 85⟩]).all_scores = [85] ∧
    (generateStatistics [processMatchedPosition ⟨"001", "Clerk", "D", "DN", 1, "Clerk"⟩
      [⟨"A", "Clerk", some 85⟩]]).score_stats = none := by
  decide

/-- C4, amended — The whole-dataset score statistics are computed over the
per-position `min_score` fields and are omitted when no result carries one;
since per-position processing always sets `min_score` to `None`, the
statistics generated for any pipeline-produced result list carry no
min/max/avg block.  Positions whose candidates have zero valid scores are
still reported under the distinct data-anomaly count (数据异常), separate
from the no-candidates count (无面试人员). -/
theorem C4_score_statistics_amended (mappings : List PositionMapping)
    (unmatched : List Row) (data : List CandidateRec) :
    (generateStatistics (calculateMinScores mappings unmatched data)).score_stats =
      none ∧
    (generateStatistics (calculateMinScores mappings unmatched data)).error_positions =
      (mappings.filter fun m => decide (positionCandidates m data ≠ [] ∧
        (positionCandidates m data).filterMap CandidateRec.score = [])).length ∧
    (generateStatistics (calculateMinScores mappings unmatched
        data)).no_interview_positions =
      (mappings.filter fun m => decide (positionCandidates m data = [])).length := by
  refine ⟨?_, ?_, ?_⟩
  · have hnone : ∀ r ∈ calculateMinScores mappings unmatched data,
        r.min_score = none := by
      intro r hr
      rw [calculateMinScores] at hr
      rcases List.mem_append.mp hr with hr' | hr'
      · obtain ⟨m, _, rfl⟩ := List.mem_map.mp hr'
        exact processPositionInfo_min_score_none (PositionInfo.matched m) data
      · obtain ⟨p, _, rfl⟩ := List.mem_map.mp hr'
        exact processPositionInfo_min_score_none (PositionInfo.unmatched p) data
    have hempty : (calculateMinScores mappings unmatched data).filterMap
        PositionScoreResult.min_score = [] :=
      List.filterMap_eq_nil_iff.mpr hnone
    simp [generateStatistics, hempty]
  · simp only [generateStatistics]
    rw [calculateMinScores, List.filter_append]
    have hun : (unmatched.map processUnmatchedPosition).filter
        (fun r => r.status == "数据异常") = [] := by
      rw [List.filter_eq_nil_iff]
      intro r hr
      obtain ⟨p, _, rfl⟩ := List.mem_map.mp hr
      simp [processUnmatchedPosition]
    rw [hun, List.append_nil, List.filter_map, List.length_map]
    congr 1
    apply List.filter_congr
    intro m _
    exact status_anomaly_bool m data
  · simp only [generateStatistics]
    rw [calculateMinScores, List.filter_append]
    have hun : (unmatched.map processUnmatchedPosition).filter
        (fun r => r.status == "无面试人员") = [] := by
      rw [List.filter_eq_nil_iff]
      intro r hr
      obtain ⟨p, _, rfl⟩ := List.mem_map.mp hr
      simp [processUnmatchedPosition]
    rw [hun, List.append_nil, List.filter_map, List.length_map]
    congr 1
    apply List.filter_congr
    intro m _
    exact status_no_interview_bool m data

/-! ## DataValidator (`src/services/data_validator.py`) -/

/-- A raw position row handed to `validate_position_data_integrity`: either
not a dict at all, or a dict whose relevant fields may be absent.  Field
values are modelled as strings (a non-string field value would take the
generic per-record exception path of the source, which is also an error). -/
inductive PosInput where
  | notDict : PosInput
  | dict (position_name position_code department : Option String) : PosInput
deriving DecidableEq

/-- The error messages of `validate_position_data_integrity`, as tagged
values carrying the same identifying data as the source's format strings. -/
inductive PosError where
  | emptyData : PosError
  | notDict (idx : Nat) : PosError
  | missingName (idx : Nat) : PosError
deriving DecidableEq

/-- The warning messages of `validate_position_data_integrity`. -/
inductive PosWarning where
  | duplicateName (name : String) : PosWarning
  | missingCode (name : String) : PosWarning
  | duplicateCode (code : String) : PosWarning
  | missingDept (name : String) : PosWarning
deriving DecidableEq

/-- Model of the `ValidationResult` dataclass for position validation (the
free-form `details` mapping is omitted; its categories mirror the error and
warning constructors). -/
structure PosValidationResult where
  is_valid : Bool
  errors : List PosError
  warnings : List PosWarning
  valid_count : Nat
  invalid_count : Nat
deriving DecidableEq

/-- The accumulator of the validation loop: error/warning lists, counts, and
the `position_names` / `position_codes` lists used for duplicate checks. -/
structure PosValidState where
  errors : List PosError
  warnings : List PosWarning
  valid_count : Nat
  invalid_count : Nat
  names : List String
  codes : List String
deriving DecidableEq

/-- The warnings a structurally valid row contributes, in source order:
duplicate name, then missing/duplicate code, then missing department. -/
def rowWarnings (names codes : List String) (pname pcode dep : String) :
    List PosWarning :=
  (if names.contains pname then [.duplicateName pname] else []) ++
  (if pcode = "" then [.missingCode pname]
   else if codes.contains pcode then [.duplicateCode pcode] else []) ++
  (if dep = "" then [.missingDept pname] else [])

/-- The `position_names` list after a structurally valid row. -/
def updNames (names : List String) (pname : String) : List String :=
  if names.contains pname then names else names ++ [pname]

/-- The `position_codes` list after a structurally valid row (only fresh
non-empty codes are recorded). -/
def updCodes (codes : List String) (pcode : String) : List String :=
  if pcode = "" then codes
  else if codes.contains pcode then codes else codes ++ [pcode]

/-- The per-row loop of `validate_position_data_integrity` (`idx` is the
0-based `enumerate` index; the source interpolates `idx+1` into messages). -/
def validatePosAux : Nat → List PosInput → PosValidState → PosValidState
  | _, [], st => st
  | i, PosInput.notDict :: rest, st =>
    validatePosAux (i + 1) rest
      { st with errors := st.errors ++ [.notDict i],
                invalid_count := st.invalid_count + 1 }
  | i, PosInput.dict name code dept :: rest, st =>
    let pname := pyStrip (name.getD "")
    if pname = "" then
      validatePosAux (i + 1) rest
        { st with errors := st.errors ++ [.missingName i],
                  invalid_count := st.invalid_count + 1 }
    else
      let pcode := pyStrip (code.getD "")
      let dep := pyStrip (dept.getD "")
      validatePosAux (i + 1) rest
        { errors := st.errors,
          warnings := st.warnings ++ rowWarnings st.names st.codes pname pcode dep,
          valid_count := st.valid_count + 1,
          invalid_count := st.invalid_count,
          names := updNames st.names pname,
          codes := updCodes st.codes pcode }

/-- Model of `DataValidator.validate_position_data_integrity`: empty input
is immediately invalid with the "职位数据为空" error; otherwise the rows are
scanned and the result is valid exactly when there are zero errors and at
least one valid row. -/
def validatePositionDataIntegrity (rows : List PosInput) : PosValidationResult :=
  if rows = [] then
    { is_valid := false, errors := [.emptyData], warnings := [],
      valid_count := 0, invalid_count := 0 }
  else
    let st := validatePosAux 0 rows ⟨[], [], 0, 0, [], []⟩
    { is_valid := decide (st.errors = []) && decide (0 < st.valid_count),
      errors := st.errors, warnings := st.warnings,
      valid_count := st.valid_count, invalid_count := st.invalid_count }

/-- A structurally valid row: a dict with a non-empty stripped name. -/
def goodPosRow : PosInput → Bool
  | PosInput.notDict => false
  | PosInput.dict name _ _ => decide (pyStrip (name.getD "") ≠ "")

theorem validatePosAux_spec :
    ∀ (rows : List PosInput) (i : Nat) (st : PosValidState),
      ((validatePosAux i rows st).valid_count =
        st.valid_count + (rows.filter goodPosRow).length) ∧
      ((validatePosAux i rows st).invalid_count =
        st.invalid_count + (rows.filter fun r => !goodPosRow r).length) ∧
      ((validatePosAux i rows st).errors = [] ↔
        (st.errors = [] ∧ ∀ r ∈ rows, goodPosRow r = true)) := by
  intro rows
  induction rows with
  | nil => intro i st; simp [validatePosAux]
  | cons row rest ih =>
    intro i st
    cases row with
    | notDict =>
      have hg : goodPosRow PosInput.notDict = false := rfl
      obtain ⟨ihv, ihi, ihe⟩ := ih (i + 1)
        { st with errors := st.errors ++ [.notDict i],
                  invalid_count := st.invalid_count + 1 }
      refine ⟨?_, ?_, ?_⟩
      · rw [validatePosAux, ihv]
        simp [hg]
      · rw [validatePosAux, ihi]
        simp [hg]
        omega
      · rw [validatePosAux, ihe]
        simp [hg]
    | dict name code dept =>
      by_cases hn : pyStrip (name.getD "") = ""
      · have hg : goodPosRow (PosInput.dict name code dept) = false := by
          simp [goodPosRow, hn]
        have hstep : validatePosAux i (PosInput.dict name code dept :: rest) st =
            validatePosAux (i + 1) rest
              { st with errors := st.errors ++ [.missingName i],
                        invalid_count := st.invalid_count + 1 } := by
          rw [validatePosAux]
          simp [hn]
        obtain ⟨ihv, ihi, ihe⟩ := ih (i + 1)
          { st with errors := st.errors ++ [.missingName i],
                    invalid_count := st.invalid_count + 1 }
        refine ⟨?_, ?_, ?_⟩
        · rw [hstep, ihv]
          simp [hg]
        · rw [hstep, ihi]
          simp [hg]
          omega
        · rw [hstep, ihe]
          simp [hg]
      · have hg : goodPosRow (PosInput.dict name code dept) = true := by
          simp [goodPosRow, hn]
        have hstep : validatePosAux i (PosInput.dict name code dept :: rest) st =
            validatePosAux (i + 1) rest
              { errors := st.errors,
                warnings := st.warnings ++ rowWarnings st.names st.codes
                  (pyStrip (name.getD "")) (pyStrip (code.getD ""))
                  (pyStrip (dept.getD "")),
                valid_count := st.valid_count + 1,
                invalid_count := st.invalid_count,
                names := updNames st.names (pyStrip (name.getD "")),
                codes := updCodes st.codes (pyStrip (code.getD "")) } := by
          rw [validatePosAux]
          simp [hn]
        obtain ⟨ihv, ihi, ihe⟩ := ih (i + 1)
          { errors := st.errors,
            warnings := st.warnings ++ rowWarnings st.names st.codes
              (pyStrip (name.getD "")) (pyStrip (code.getD ""))
              (pyStrip (dept.getD "")),
            valid_count := st.valid_count + 1,
            invalid_count := st.invalid_count,
            names := updNames st.names (pyStrip (name.getD "")),
            codes := updCodes st.codes (pyStrip (code.getD "")) }
        refine ⟨?_, ?_, ?_⟩
        · rw [hstep, ihv]
          simp [hg]
          omega
        · rw [hstep, ihi]
          simp [hg]
        · rw [hstep, ihe]
          simp [hg]

/-- C9 — `validate_position_data_integrity` marks its result valid exactly
when there are zero errors and at least one valid row; rows that are not
dicts or lack a non-empty stripped name are the rows counted invalid (each
contributing an error), all other rows are counted valid, and there are no
errors exactly when every row is structurally valid — so duplicate names,
duplicate codes, missing codes, and missing departments (which only append
warnings) can never make the result invalid on their own. -/
theorem C9_validate_positions_valid_iff (rows : List PosInput) :
    ((validatePositionDataIntegrity rows).is_valid = true ↔
      ((validatePositionDataIntegrity rows).errors = [] ∧
        0 < (validatePositionDataIntegrity rows).valid_count)) ∧
    (rows ≠ [] →
      ((validatePositionDataIntegrity rows).valid_count =
          (rows.filter goodPosRow).length ∧
        (validatePositionDataIntegrity rows).invalid_count =
          (rows.filter fun r => !goodPosRow r).length ∧
        ((validatePositionDataIntegrity rows).errors = [] ↔
          ∀ r ∈ rows, goodPosRow r = true))) := by
  by_cases hrows : rows = []
  · subst hrows
    constructor
    · simp [validatePositionDataIntegrity]
    · intro h
      exact absurd rfl h
  · obtain ⟨hv, hi, he⟩ := validatePosAux_spec rows 0 ⟨[], [], 0, 0, [], []⟩
    have hres : validatePositionDataIntegrity rows =
        { is_valid := decide ((validatePosAux 0 rows ⟨[], [], 0, 0, [], []⟩).errors = []) &&
            decide (0 < (validatePosAux 0 rows ⟨[], [], 0, 0, [], []⟩).valid_count),
          errors := (validatePosAux 0 rows ⟨[], [], 0, 0, [], []⟩).errors,
          warnings := (validatePosAux 0 rows ⟨[], [], 0, 0, [], []⟩).warnings,
          valid_count := (validatePosAux 0 rows ⟨[], [], 0, 0, [], []⟩).valid_count,
          invalid_count := (validatePosAux 0 rows ⟨[], [], 0, 0, [], []⟩).invalid_count } := by
      rw [validatePositionDataIntegrity, if_neg hrows]
    rw [hres]
    refine ⟨by simp, fun _ => ⟨by simpa using hv, by simpa using hi, ?_⟩⟩
    simpa using he

theorem C9_validate_positions_valid_iff_witness :
    (validatePositionDataIntegrity
      [PosInput.dict (some "A") (some "1") (some "D"),
       PosInput.dict (some "A") none none]).is_valid = true := by
  have h := C9_validate_positions_valid_iff
    [PosInput.dict (some "A") (some "1") (some "D"),
     PosInput.dict (some "A") none none]
  have h2 := h.2 (by decide)
  refine h.1.mpr ⟨h2.2.2.mpr (by decide), ?_⟩
  rw [h2.1]
  decide

/-! ## DataMatcher (`src/services/data_matcher.py`) — legacy matcher -/

/-- Whether the second character list is a prefix of the first. -/
def listStartsWith : List Char → List Char → Bool
  | _, [] => true
  | [], _ :: _ => false
  | c :: cs, d :: ds => c == d && listStartsWith cs ds

/-- Python substring containment `needle in hay` (true for the empty
needle). -/
def listHasSub : List Char → List Char → Bool
  | [], needle => needle.isEmpty
  | c :: cs, needle => listStartsWith (c :: cs) needle || listHasSub cs needle

/-- Python `needle in hay` on strings. -/
def strContains (hay needle : String) : Bool :=
  listHasSub hay.data needle.data

/-- Python `re.sub(r'\s+', '', s)`: remove every whitespace character. -/
def noSpace (s : String) : String :=
  String.mk (s.data.filter fun c => !c.isWhitespace)

/-- Model of `DataMatcher._exact_match`: direct equality, then
case-insensitive equality, then whitespace-stripped equality, returning the
first hit. -/
def exactMatch (positionName : String) (interviewPositions : List String) :
    Option String :=
  if interviewPositions.contains positionName then some positionName
  else
    match interviewPositions.find? (fun ip => pyLower ip == pyLower positionName) with
    | some ip => some ip
    | none => interviewPositions.find? (fun ip => noSpace ip == noSpace positionName)

/-- Model of `DataMatcher._code_match`: the first interview position name
containing the (non-empty) position code as a substring. -/
def codeMatch (positionCode : String) (interviewPositions : List String) :
    Option String :=
  if positionCode = "" then none
  else interviewPositions.find? fun ip => strContains ip positionCode

/-- The stop-word list of `DataMatcher._clean_position_name`. -/
def stopWords : List String :=
  ["岗位", "职位", "工作", "人员", "专员", "助理", "主管", "经理", "总监", "师"]

/-- Python `str.replace(w, r)`: replace every non-overlapping occurrence of
`w`, scanning left to right (identity for the empty pattern, which never
occurs here). -/
def replaceAllChars (w r : List Char) : List Char → List Char
  | [] => []
  | c :: cs =>
    if w ≠ [] ∧ listStartsWith (c :: cs) w then
      r ++ replaceAllChars w r (cs.drop (w.length - 1))
    else c :: replaceAllChars w r cs
termination_by l => l.length
decreasing_by
  · simp only [List.length_drop, List.length_cons]
    omega
  · simp only [List.length_cons]
    omega

/-- Python `str.replace` on strings. -/
def pyReplace (s w r : String) : String :=
  String.mk (replaceAllChars w.data r.data s.data)

/-- A "word" character kept by `re.sub(r'[^\w\u4e00-\u9fff]', '', ...)`:
ASCII alphanumerics, the underscore, and the CJK range named by the
pattern (an approximation of Python's Unicode-aware `\w` sufficient for
the character sets this code works with). -/
def wordChar (c : Char) : Bool :=
  c.isAlphanum || c == '_' || (0x4e00 ≤ c.toNat && c.toNat ≤ 0x9fff)

/-- Model of `DataMatcher._clean_position_name`: remove the stop words,
drop every non-word character, and strip.  (The source's intermediate
`\s+` removal is subsumed: whitespace is not a word character.) -/
def cleanPositionName (s : String) : String :=
  let c := stopWords.foldl (fun acc word => pyReplace acc word "") s
  pyStrip (String.mk (c.data.filter wordChar))

/-- The domain keyword list of `DataMatcher._contains_keywords`. -/
def commonKeywords : List String :=
  ["软件", "工程", "开发", "产品", "经理", "设计", "前端", "后端", "数据", "分析", "测试", "运维"]

/-- Model of `DataMatcher._contains_keywords`: the two names share at least
one domain keyword. -/
def containsKeywords (p1 p2 : String) : Bool :=
  commonKeywords.any fun kw => strContains p1 kw && strContains p2 kw

/-- The scanning loop of `DataMatcher._fuzzy_match`, parameterized over the
similarity primitive `ratio` (the external `difflib.SequenceMatcher(None,
a, b).ratio()`): per candidate, compute the ratio of the cleaned names, add
the 0.1 keyword bonus capped at 1.0, and keep the strictly highest value
(first seen wins ties). -/
def fuzzyScore (ratio : String → String → ℚ) (cleanedPos ip : String) : ℚ :=
  if containsKeywords cleanedPos (cleanPositionName ip) then
    min 1 (ratio cleanedPos (cleanPositionName ip) + 1 / 10)
  else ratio cleanedPos (cleanPositionName ip)

/-- The candidate scan of `_fuzzy_match`, keeping the strictly highest
score (first seen wins ties). -/
def fuzzyLoop (ratio : String → String → ℚ) (cleanedPos : String) :
    List String → Option String × ℚ → Option String × ℚ
  | [], acc => acc
  | ip :: rest, acc =>
    if fuzzyScore ratio cleanedPos ip > acc.2 then
      fuzzyLoop ratio cleanedPos rest (some ip, fuzzyScore ratio cleanedPos ip)
    else fuzzyLoop ratio cleanedPos rest acc

/-- Model of `DataMatcher._fuzzy_match`. -/
def fuzzyMatch (ratio : String → String → ℚ) (positionName : String)
    (interviewPositions : List String) : Option String × ℚ :=
  fuzzyLoop ratio (cleanPositionName positionName) interviewPositions (none, 0)

/-- Model of the legacy `MatchResult` dataclass. -/
structure LegacyMatchResult where
  position_name : String
  interview_position : String
  match_type : String
  confidence : ℚ
  matched : Bool
deriving DecidableEq

/-- Python truthiness of an optional string (`if exact_match:` is false both
for `None` and for the empty string). -/
def optTruthy : Option String → Bool
  | none => false
  | some s => decide (s ≠ "")

/-- Model of `DataMatcher._find_best_match`: exact tier, then code tier
(only with a non-empty position code), then fuzzy tier gated by the
threshold, then the no-match result. -/
def findBestMatch (ratio : String → String → ℚ) (thr : ℚ)
    (positionName positionCode : String) (ips : List String) : LegacyMatchResult :=
  if optTruthy (exactMatch positionName ips) then
    { position_name := positionName,
      interview_position := (exactMatch positionName ips).getD "",
      match_type := "exact", confidence := 1, matched := true }
  else if positionCode ≠ "" ∧ optTruthy (codeMatch positionCode ips) then
    { position_name := positionName,
      interview_position := (codeMatch positionCode ips).getD "",
      match_type := "code", confidence := 19/20, matched := true }
  else if optTruthy (fuzzyMatch ratio positionName ips).1 ∧
      (fuzzyMatch ratio positionName ips).2 ≥ thr then
    { position_name := positionName,
      interview_position := (fuzzyMatch ratio positionName ips).1.getD "",
      match_type := "fuzzy", confidence := (fuzzyMatch ratio positionName ips).2,
      matched := true }
  else
    { position_name := positionName, interview_position := "",
      match_type := "none", confidence := 0, matched := false }

theorem exactMatch_cases (p : String) (ips : List String) (e : String)
    (h : exactMatch p ips = some e) : e = p ∨ e ∈ ips := by
  rw [exactMatch] at h
  by_cases hc : ips.contains p
  · rw [if_pos hc] at h
    exact Or.inl (Option.some_inj.mp h).symm
  · rw [if_neg hc] at h
    rcases hf : ips.find? (fun ip => pyLower ip == pyLower p) with _ | ip
    · rw [hf] at h
      exact Or.inr (List.mem_of_find?_eq_some h)
    · rw [hf] at h
      have he : ip = e := Option.some_inj.mp h
      subst he
      exact Or.inr (List.mem_of_find?_eq_some hf)

theorem codeMatch_mem (c : String) (ips : List String) (e : String)
    (h : codeMatch c ips = some e) : e ∈ ips := by
  rw [codeMatch] at h
  by_cases hc : c = ""
  · rw [if_pos hc] at h
    exact absurd h (by simp)
  · rw [if_neg hc] at h
    exact List.mem_of_find?_eq_some h

theorem fuzzyLoop_mem (ratio : String → String → ℚ) (cp : String) :
    ∀ (l : List String) (acc : Option String × ℚ) (f : String),
      (fuzzyLoop ratio cp l acc).1 = some f → acc.1 = some f ∨ f ∈ l := by
  intro l
  induction l with
  | nil =>
    intro acc f h
    exact Or.inl (by simpa [fuzzyLoop] using h)
  | cons ip rest ih =>
    intro acc f h
    rw [fuzzyLoop] at h
    by_cases hgt : fuzzyScore ratio cp ip > acc.2
    · rw [if_pos hgt] at h
      rcases ih (some ip, fuzzyScore ratio cp ip) f h with h' | h'
      · have : ip = f := Option.some_inj.mp h'
        exact Or.inr (this ▸ List.mem_cons_self ip rest)
      · exact Or.inr (List.mem_cons_of_mem ip h')
    · rw [if_neg hgt] at h
      rcases ih acc f h with h' | h'
      · exact Or.inl h'
      · exact Or.inr (List.mem_cons_of_mem ip h')

/-- C5, counterexample — with the position name "" and candidate names
["", "aXb"], an exact match exists (the candidate list literally contains
the position name itself), yet `_find_best_match` with a non-empty position
code returns a code match (kind "code", confidence 0.95): the truthiness
test `if exact_match:` rejects the empty-string exact hit, so the claim as
universally stated is false. -/
theorem C5_counterexample_empty_exact_loses_to_code :
    ("" ∈ ["", "aXb"]) ∧
    (findBestMatch (fun _ _ => 0) (8 / 10) "" "X" ["", "aXb"]).match_type = "code" ∧
    (findBestMatch (fun _ _ => 0) (8 / 10) "" "X" ["", "aXb"]).confidence = 19 / 20 := by
  refine ⟨by decide, rfl, rfl⟩

/-- C5, amended — provided the position name is non-empty and no candidate
position name is the empty string, `_find_best_match` returns the exact
match (kind "exact", confidence 1.0) whenever one exists; only when no
exact match exists and the position code is non-empty may it return a code
match (kind "code", confidence 0.95); only when neither exists may it
return a fuzzy match (kind "fuzzy", ratio at or above the threshold),
regardless of how high the fuzzy ratio is; otherwise it returns kind
"none" with confidence 0.0. -/
theorem C5_legacy_tier_ordering_amended (ratio : String → String → ℚ) (thr : ℚ)
    (positionName positionCode : String) (ips : List String)
    (hname : positionName ≠ "") (hnec : "" ∉ ips) :
    (∀ e, exactMatch positionName ips = some e →
      findBestMatch ratio thr positionName positionCode ips =
        ⟨positionName, e, "exact", 1, true⟩) ∧
    (exactMatch positionName ips = none → positionCode ≠ "" →
      ∀ c, codeMatch positionCode ips = some c →
      findBestMatch ratio thr positionName positionCode ips =
        ⟨positionName, c, "code", 19 / 20, true⟩) ∧
    (exactMatch positionName ips = none →
      (positionCode = "" ∨ codeMatch positionCode ips = none) →
      (∀ f, (fuzzyMatch ratio positionName ips).1 = some f →
        (fuzzyMatch ratio positionName ips).2 ≥ thr →
        findBestMatch ratio thr positionName positionCode ips =
          ⟨positionName, f, "fuzzy", (fuzzyMatch ratio positionName ips).2, true⟩) ∧
      (((fuzzyMatch ratio positionName ips).1 = none ∨
          (fuzzyMatch ratio positionName ips).2 < thr) →
        findBestMatch ratio thr positionName positionCode ips =
          ⟨positionName, "", "none", 0, false⟩)) := by
  refine ⟨?_, ?_, ?_⟩
  · intro e hsome
    have hne : e ≠ "" := by
      rcases exactMatch_cases positionName ips e hsome with rfl | hmem
      · exact hname
      · intro hc
        exact hnec (hc ▸ hmem)
    rw [findBestMatch, hsome]
    rw [if_pos (by simp [optTruthy, hne])]
    simp
  · intro hex hpc c hcode
    have hne : c ≠ "" := by
      intro hc
      exact hnec (hc ▸ codeMatch_mem positionCode ips c hcode)
    rw [findBestMatch, hex, hcode]
    rw [if_neg (by simp [optTruthy])]
    rw [if_pos ⟨hpc, by simp [optTruthy, hne]⟩]
    simp
  · intro hex hnoc
    have hfalse2 : ¬ (positionCode ≠ "" ∧
        optTruthy (codeMatch positionCode ips) = true) := by
      rintro ⟨hpc, htr⟩
      rcases hnoc with hc | hc
      · exact hpc hc
      · rw [hc] at htr
        exact absurd htr (by simp [optTruthy])
    constructor
    · intro f hf hthr
      have hne : f ≠ "" := by
        intro hc
        rcases fuzzyLoop_mem ratio (cleanPositionName positionName) ips (none, 0) f
          (by rw [fuzzyMatch] at hf; exact hf) with h' | h'
        · exact absurd h' (by simp)
        · exact hnec (hc ▸ h')
      rw [findBestMatch, hex]
      rw [if_neg (by simp [optTruthy])]
      rw [if_neg hfalse2]
      rw [if_pos ⟨by rw [hf]; simp [optTruthy, hne], hthr⟩]
      rw [hf]
      simp
    · intro hfail
      rw [findBestMatch, hex]
      rw [if_neg (by simp [optTruthy])]
      rw [if_neg hfalse2]
      rcases hfail with hc | hc
      · rw [if_neg (by rw [hc]; rintro ⟨htr, _⟩; exact absurd htr (by simp [optTruthy]))]
      · rw [if_neg (fun hb => absurd hb.2 (not_le.mpr hc))]

theorem C5_legacy_tier_ordering_amended_witness :
    findBestMatch (fun _ _ => 0) (8 / 10) "软件工程师" "P1" ["软件工程师"] =
      ⟨"软件工程师", "软件工程师", "exact", 1, true⟩ :=
  (C5_legacy_tier_ordering_amended (fun _ _ => 0) (8 / 10) "软件工程师" "P1"
    ["软件工程师"] (by decide) (by decide)).1 "软件工程师" rfl

/-! ## Legacy `DataMatcher.match_positions` pipeline -/

/-- A raw position row handed to `match_positions`. -/
structure LegacyPosRow where
  position_name : Option String
  position_code : Option String
  department : Option String
  sheet_name : Option String
deriving DecidableEq

/-- A raw interview row handed to `match_positions` (`score` carries the raw
cell; only its presence matters to this pipeline). -/
structure LegacyIntRow where
  name : Option String
  position_name : Option String
  score : Option Cell
deriving DecidableEq

/-- Exceptions of the legacy matcher.  `mappingConstructionError` models the
`TypeError` raised when `match_positions` constructs a `PositionMapping`
without the required `department_name` and `recruit_count` dataclass
arguments (wrapped into a `DataMatchingError` by the enclosing handler). -/
inductive LegacyError where
  | emptyPositions : LegacyError
  | emptyInterviews : LegacyError
  | positionMissingName (idx : Nat) : LegacyError
  | interviewMissingField (idx : Nat) : LegacyError
  | mappingConstructionError : LegacyError
deriving DecidableEq

/-- Model of `DataMatcher._validate_input_data`. -/
def validateInputData (ps : List LegacyPosRow) (is : List LegacyIntRow) :
    Except LegacyError Unit :=
  if ps.isEmpty then .error .emptyPositions
  else if is.isEmpty then .error .emptyInterviews
  else
    match ps.findIdx? (fun p => p.position_name.getD "" == "") with
    | some i => .error (.positionMissingName i)
    | none =>
      match is.findIdx? (fun r =>
          r.name.isNone || r.position_name.isNone || r.score.isNone) with
      | some i => .error (.interviewMissingField i)
      | none => .ok ()

/-- Model of `DataMatcher._extract_interview_positions`: the distinct
non-empty stripped interview position names.  The source materializes a
Python set as a list; within one interpreter session that order is a fixed
function of the inserted values, modelled here as first-occurrence order. -/
def extractInterviewPositions (is : List LegacyIntRow) : List String :=
  ((is.map fun r => pyStrip (r.position_name.getD "")).filter fun s => s ≠ "").dedup

/-- The matching loop of `match_positions`: each position is matched with
`_find_best_match`; a matched position triggers the `PositionMapping`
construction, which raises (missing dataclass arguments), so the loop
returns the unmatched positions accumulated so far plus a crash flag. -/
def legacyLoop (ratio : String → String → ℚ) (thr : ℚ) (ips : List String) :
    List LegacyPosRow → List LegacyPosRow → List LegacyPosRow × Bool
  | [], acc => (acc, false)
  | p :: rest, acc =>
    if (findBestMatch ratio thr (p.position_name.getD "") (p.position_code.getD "")
        ips).matched then
      (acc, true)
    else legacyLoop ratio thr ips rest (acc ++ [p])

/-- The mutable lists of a `DataMatcher` object.  No `PositionMapping` value
can ever be constructed (the construction raises), so the mappings list is
represented by its length-zero content only. -/
structure LegacyState where
  position_mappings : List Unit
  unmatched_positions : List LegacyPosRow
  unmatched_interviews : List String
deriving DecidableEq

/-- The result dictionary of `_generate_match_result` (statistics fields). -/
structure LegacyOutput where
  unmatched_positions : List LegacyPosRow
  unmatched_interviews : List String
  total_positions : Nat
  matched_positions : Nat
  match_rate : ℚ
deriving DecidableEq

/-- Model of `DataMatcher.match_positions`: clear the stored lists, validate
the inputs, extract the unique interview positions, match every position
(raising on the first matched one, see `LegacyError`), and assemble the
result.  The final state reflects the cleared-then-accumulated lists. -/
def matchPositions (ratio : String → String → ℚ) (thr : ℚ) (st : LegacyState)
    (ps : List LegacyPosRow) (is : List LegacyIntRow) :
    LegacyState × Except LegacyError LegacyOutput :=
  match validateInputData ps is with
  | .error e => (⟨[], [], []⟩, .error e)
  | .ok _ =>
    match legacyLoop ratio thr (extractInterviewPositions is) ps [] with
    | (acc, true) => (⟨[], acc, []⟩, .error .mappingConstructionError)
    | (acc, false) =>
      (⟨[], acc, extractInterviewPositions is⟩,
       .ok ⟨acc, extractInterviewPositions is, acc.length, 0,
            if 0 < acc.length then 0 else 0⟩)

/-- C8 — Running the full match operation twice on identical inputs yields
identical result lists (same matched flags, match scores, and matched
candidate sets) for each matcher: the configurable matcher recomputes from
scratch after clearing its stored results; the fast matcher's second run
reuses (or identically rebuilds) the index built by the first run on the
same candidate table; the legacy matcher's outcome is independent of its
stored state, which is cleared on entry. -/
theorem C8_match_twice_deterministic :
    (∀ (m : ConfigurableDataMatcher) (posDf intDf : DataFrame)
        (m₁ : ConfigurableDataMatcher) (r₁ : List ConfigurableMatchResult),
      m.matchData posDf intDf = Except.ok (m₁, r₁) →
      m₁.matchData posDf intDf =
        Except.ok ({ m₁ with match_results := r₁ }, r₁)) ∧
    (∀ (mappings : List (String × String)) (posDf intDf : DataFrame),
      (matchDataFast ((matchDataFast ⟨mappings, []⟩ posDf intDf).1) posDf intDf).2 =
        (matchDataFast ⟨mappings, []⟩ posDf intDf).2 ∧
      (matchDataFast ((matchDataFast ⟨mappings, []⟩ posDf intDf).1) posDf intDf).1 =
        (matchDataFast ⟨mappings, []⟩ posDf intDf).1) ∧
    (∀ (ratio : String → String → ℚ) (thr : ℚ) (s s' : LegacyState)
        (ps : List LegacyPosRow) (is : List LegacyIntRow),
      matchPositions ratio thr s ps is = matchPositions ratio thr s' ps is) := by
  refine ⟨?_, ?_, ?_⟩
  · intro m posDf intDf m₁ r₁ hok
    rw [ConfigurableDataMatcher.matchData] at hok
    rcases hv : validateColumnsExist m.column_mappings posDf intDf with e | u
    · rw [hv] at hok
      exact absurd hok (by simp)
    · rw [hv] at hok
      simp only [Except.ok.injEq, Prod.mk.injEq] at hok
      obtain ⟨hm, hr⟩ := hok
      have hcm : m₁.column_mappings = m.column_mappings := by
        rw [← hm]
      rw [ConfigurableDataMatcher.matchData, hcm, hv, hr]
  · intro mappings posDf intDf
    have h1 : matchDataFast ⟨mappings, []⟩ posDf intDf =
        (⟨mappings, buildIndices mappings intDf []⟩,
         posDf.rows.mapM fun r =>
           matchSinglePositionFast mappings (buildIndices mappings intDf []) r intDf) := by
      rw [matchDataFast]
      simp
    have h2 : matchDataFast ⟨mappings, buildIndices mappings intDf []⟩ posDf intDf =
        (⟨mappings, buildIndices mappings intDf []⟩,
         posDf.rows.mapM fun r =>
           matchSinglePositionFast mappings (buildIndices mappings intDf []) r intDf) := by
      rw [matchDataFast]
      by_cases hB : buildIndices mappings intDf [] = []
      · simp [hB]
      · simp [hB]
    rw [h1, h2]
    exact ⟨rfl, rfl⟩
  · intro ratio thr s s' ps is
    rfl

theorem C8_match_twice_deterministic_witness :
    ConfigurableDataMatcher.matchData
        ⟨[("p", "c")], 8 / 10,
          [⟨[("p", Cell.str "A")], [2], 1, CfgMatchDetails.exactDetails [("c", "A")], true⟩]⟩
        ⟨["p"], [[("p", Cell.str "A")]]⟩ witDf =
      Except.ok
        (⟨[("p", "c")], 8 / 10,
          [⟨[("p", Cell.str "A")], [2], 1, CfgMatchDetails.exactDetails [("c", "A")], true⟩]⟩,
         [⟨[("p", Cell.str "A")], [2], 1, CfgMatchDetails.exactDetails [("c", "A")], true⟩]) :=
  C8_match_twice_deterministic.1
    ⟨[("p", "c")], 8 / 10, []⟩ ⟨["p"], [[("p", Cell.str "A")]]⟩ witDf
    ⟨[("p", "c")], 8 / 10,
      [⟨[("p", Cell.str "A")], [2], 1, CfgMatchDetails.exactDetails [("c", "A")], true⟩]⟩
    [⟨[("p", Cell.str "A")], [2], 1, CfgMatchDetails.exactDetails [("c", "A")], true⟩]
    rfl

/-! ## C1 — equivalence of indexed and direct matching -/

/-- A position row is normalization-clean for a mapping when every mapped
position-side cell is NaN or a string equal to its own strip and different
from "nan". -/
def posRowClean (mappings : List (String × String)) (posRow : Row) : Prop :=
  ∀ pi ∈ mappings, ∀ c, posRow.get? pi.1 = some c →
    c = Cell.na ∨ ∃ s, c = Cell.str s ∧ pyStrip s = s ∧ s ≠ "nan"

/-- A candidate table is normalization-clean for a mapping when every mapped
candidate-side cell is NaN or a string equal to its own strip. -/
def candClean (mappings : List (String × String)) (df : DataFrame) : Prop :=
  ∀ r ∈ df.rows, ∀ pi ∈ mappings,
    r.cell pi.2 = Cell.na ∨ ∃ s, r.cell pi.2 = Cell.str s ∧ pyStrip s = s

theorem conditions_eq (mappings : List (String × String)) (posRow : Row)
    (hpos : posRowClean mappings posRow) :
    fastConditions mappings posRow = matchConditions mappings posRow := by
  rw [fastConditions, matchConditions]
  apply List.filterMap_congr
  intro pi hpi
  rcases hget : posRow.get? pi.1 with _ | c
  · have h0 : fastPosValue posRow pi.1 = "" := by
      rw [fastPosValue, hget]
      rfl
    have h1 : (posRow.cell pi.1).strIfNotna = "" := by
      rw [Row.cell, hget]
      rfl
    simp [h0, h1]
  · rcases hpos pi hpi c hget with rfl | ⟨t, rfl, hts, htn⟩
    · have h0 : fastPosValue posRow pi.1 = "nan" := by
        rw [fastPosValue, hget]
        rfl
      have h1 : (posRow.cell pi.1).strIfNotna = "" := by
        rw [Row.cell, hget]
        rfl
      simp [h0, h1]
    · have h0 : fastPosValue posRow pi.1 = t := by
        rw [fastPosValue, hget]
        exact hts
      have h1 : (posRow.cell pi.1).strIfNotna = t := by
        rw [Row.cell, hget]
        rfl
      simp only [h0, h1]
      by_cases ht0 : t = ""
      · simp [ht0]
      · simp [ht0, htn]

theorem fastConditions_mem (mappings : List (String × String)) (posRow : Row)
    (c : String × String) (h : c ∈ fastConditions mappings posRow) :
    c.2 ≠ "" ∧ c.2 ≠ "nan" ∧ ∃ pc, (pc, c.1) ∈ mappings := by
  rw [fastConditions] at h
  obtain ⟨pi, hpi, hf⟩ := List.mem_filterMap.mp h
  simp only at hf
  by_cases hv : fastPosValue posRow pi.1 = "" ∨ fastPosValue posRow pi.1 = "nan"
  · rw [if_pos (by simpa using hv)] at hf
    exact absurd hf (by simp)
  · push_neg at hv
    rw [if_neg (by simpa using hv)] at hf
    obtain rfl : (pi.2, fastPosValue posRow pi.1) = c := Option.some_inj.mp hf
    exact ⟨hv.1, hv.2, pi.1, by simpa using hpi⟩

/-- The candidate-row set an index lookup yields for one condition. -/
def lkSet (store : Indices) (cond : String × String) : Finset ℕ :=
  match alistGet? store cond.1 with
  | some colIdx => ((alistGet? colIdx cond.2).getD []).toFinset
  | none => ∅

theorem foldl_inter_empty (store : Indices) :
    ∀ conds : List (String × String),
      conds.foldl (fun t c => t ∩ lkSet store c) ∅ = ∅ := by
  intro conds
  induction conds with
  | nil => rfl
  | cons c rest ih => simpa [List.foldl_cons, Finset.empty_inter] using ih

theorem fastAccum_inter (store : Indices) :
    ∀ (conds : List (String × String)) (S : Finset ℕ),
      (∀ c ∈ conds, (alistGet? store c.1).isSome) →
      fastAccum store (some S) conds =
        some (conds.foldl (fun t c => t ∩ lkSet store c) S) := by
  intro conds
  induction conds with
  | nil => intro S _; rfl
  | cons c rest ih =>
    intro S hpres
    rcases hcol : alistGet? store c.1 with _ | colIdx
    · have h := hpres c (List.mem_cons_self c rest)
      rw [hcol] at h
      simp at h
    · have hlk : lkSet store c = ((alistGet? colIdx c.2).getD []).toFinset := by
        rw [lkSet, hcol]
      have hstep : fastAccum store (some S) (c :: rest) =
          (if S ∩ ((alistGet? colIdx c.2).getD []).toFinset = ∅ then
            some (S ∩ ((alistGet? colIdx c.2).getD []).toFinset)
          else
            fastAccum store (some (S ∩ ((alistGet? colIdx c.2).getD []).toFinset)) rest) := by
        rw [fastAccum, hcol]
      rw [hstep, List.foldl_cons, ← hlk]
      by_cases hempty : S ∩ lkSet store c = ∅
      · rw [if_pos hempty, hempty, foldl_inter_empty store rest]
      · rw [if_neg hempty]
        exact ih (S ∩ lkSet store c) fun q hq => hpres q (List.mem_cons_of_mem c hq)

theorem fastAccum_none (store : Indices) (c : String × String)
    (rest : List (String × String))
    (hpres : ∀ q ∈ c :: rest, (alistGet? store q.1).isSome) :
    fastAccum store none (c :: rest) =
      some (rest.foldl (fun t q => t ∩ lkSet store q) (lkSet store c)) := by
  rcases hcol : alistGet? store c.1 with _ | colIdx
  · have h := hpres c (List.mem_cons_self c rest)
    rw [hcol] at h
    simp at h
  · have hlk : lkSet store c = ((alistGet? colIdx c.2).getD []).toFinset := by
      rw [lkSet, hcol]
    have hstep : fastAccum store none (c :: rest) =
        (if ((alistGet? colIdx c.2).getD []).toFinset = ∅ then
          some ((alistGet? colIdx c.2).getD []).toFinset
        else fastAccum store (some ((alistGet? colIdx c.2).getD []).toFinset) rest) := by
      rw [fastAccum, hcol]
    rw [hstep, ← hlk]
    by_cases hempty : lkSet store c = ∅
    · rw [if_pos hempty, hempty, foldl_inter_empty store rest]
    · rw [if_neg hempty]
      exact fastAccum_inter store rest (lkSet store c)
        fun q hq => hpres q (List.mem_cons_of_mem c hq)

theorem mem_foldl_inter (store : Indices) :
    ∀ (conds : List (String × String)) (S : Finset ℕ) (j : ℕ),
      j ∈ conds.foldl (fun t c => t ∩ lkSet store c) S ↔
        j ∈ S ∧ ∀ c ∈ conds, j ∈ lkSet store c := by
  intro conds
  induction conds with
  | nil => intro S j; simp
  | cons c rest ih =>
    intro S j
    rw [List.foldl_cons, ih]
    constructor
    · rintro ⟨hjs, hrest⟩
      have hsc := Finset.mem_inter.mp hjs
      refine ⟨hsc.1, fun q hq => ?_⟩
      rcases List.mem_cons.mp hq with rfl | hq'
      · exact hsc.2
      · exact hrest q hq'
    · rintro ⟨hjs, hall⟩
      exact ⟨Finset.mem_inter.mpr ⟨hjs, hall c (List.mem_cons_self c rest)⟩,
        fun q hq => hall q (List.mem_cons_of_mem c hq)⟩

theorem lkSet_mem (mappings : List (String × String)) (df : DataFrame)
    (hcols : ∀ pi ∈ mappings, df.cols.contains pi.2 = true)
    (hcand : candClean mappings df)
    (cond : String × String) (pc : String) (hpc : (pc, cond.1) ∈ mappings)
    (hv1 : cond.2 ≠ "") (hv2 : cond.2 ≠ "nan") (j : ℕ) :
    j ∈ lkSet (buildIndices mappings df []) cond ↔
      j < df.rows.length ∧ ((df.rows.getD j []).cell cond.1).astypeStr = cond.2 := by
  have hcontains : df.cols.contains cond.1 = true := hcols (pc, cond.1) hpc
  have hstore : alistGet? (buildIndices mappings df []) cond.1 =
      some (buildColIndex df cond.1) := by
    rw [buildIndices_get]
    rw [if_pos ⟨(pc, cond.1), hpc, rfl, hcontains⟩]
  have hlk : lkSet (buildIndices mappings df []) cond =
      ((alistGet? (buildColIndex df cond.1) cond.2).getD []).toFinset := by
    rw [lkSet, hstore]
  rw [hlk, List.mem_toFinset, mem_buildColIndex df cond.1 cond.2 hv1 j]
  constructor
  · rintro ⟨hj, hnorm⟩
    refine ⟨hj, ?_⟩
    have hmem : df.rows.getD j [] ∈ df.rows := by
      rw [List.getD_eq_getElem _ _ hj]
      exact List.getElem_mem hj
    rcases hcand _ hmem (pc, cond.1) hpc with hna | ⟨t, ht, hts⟩
    · rw [hna, Cell.normStr] at hnorm
      exact absurd hnorm.symm hv1
    · rw [ht, Cell.normStr, hts] at hnorm
      rw [ht, Cell.astypeStr]
      exact hnorm
  · rintro ⟨hj, hast⟩
    refine ⟨hj, ?_⟩
    have hmem : df.rows.getD j [] ∈ df.rows := by
      rw [List.getD_eq_getElem _ _ hj]
      exact List.getElem_mem hj
    rcases hcand _ hmem (pc, cond.1) hpc with hna | ⟨t, ht, hts⟩
    · rw [hna, Cell.astypeStr] at hast
      exact absurd hast.symm hv2
    · rw [ht, Cell.astypeStr] at hast
      rw [ht, Cell.normStr, hts]
      exact hast

theorem rowPassesAll_iff (cols : List String) (conds : List (String × String))
    (r : Row) (hcols : ∀ c ∈ conds, cols.contains c.1 = true) :
    rowPassesAll cols conds r = true ↔
      ∀ c ∈ conds, (r.cell c.1).astypeStr = c.2 := by
  rw [rowPassesAll, List.all_eq_true]
  constructor
  · intro h c hc
    have hp := h c hc
    rw [rowPassesCond, hcols c hc] at hp
    simpa using hp
  · intro h c hc
    rw [rowPassesCond, hcols c hc]
    simpa using h c hc

/-- C1, counterexample — on a position value carrying trailing whitespace
("A ") against the candidate value "A", the direct conjunctive filter of
`_find_matches_for_position` compares the raw string and finds no match,
while `_match_single_position_fast` strips the value, looks it up in the
index built from the same candidate table, and matches (returning without
error): the two matchers disagree on the matched flag. -/
theorem C1_counterexample_trailing_whitespace :
    (findMatchesForPosition [("p", "c")] [("p", Cell.str "A ")]
      ⟨["c"], [[("c", Cell.str "A")]]⟩).matched = false ∧
    Except.map FastMatchResult.matched
      (matchSinglePositionFast [("p", "c")]
        (buildIndices [("p", "c")] ⟨["c"], [[("c", Cell.str "A")]]⟩ [])
        [("p", Cell.str "A ")] ⟨["c"], [[("c", Cell.str "A")]]⟩) =
      Except.ok true := by
  refine ⟨by decide, rfl⟩

/-- C1, amended — provided every mapped position-side cell is NaN or a
string equal to its own strip and different from "nan", every mapped
candidate-side cell is NaN or a string equal to its own strip, and every
mapped candidate-side column is present in the candidate table (which
`match_data` validates before matching), matching via the prebuilt
per-column value-to-row-index lists returns without raising (the index is
built from the same table the rows are fetched from, so no stored position
is out of range) and agrees with direct conjunctive filtering of the
candidate table on the matched flag and the set of matched candidate
rows. -/
theorem C1_index_matches_direct_filter_amended (mappings : List (String × String))
    (posRow : Row) (df : DataFrame)
    (hpos : posRowClean mappings posRow)
    (hcand : candClean mappings df)
    (hcols : ∀ pi ∈ mappings, df.cols.contains pi.2 = true) :
    Except.map FastMatchResult.matched
        (matchSinglePositionFast mappings (buildIndices mappings df []) posRow df) =
      Except.ok (findMatchesForPosition mappings posRow df).matched ∧
    Except.map FastMatchResult.interviewIdx
        (matchSinglePositionFast mappings (buildIndices mappings df []) posRow df) =
      Except.ok (findMatchesForPosition mappings posRow df).interviewIdx.toFinset := by
  have hceq : fastConditions mappings posRow = matchConditions mappings posRow :=
    conditions_eq mappings posRow hpos
  rcases hc : matchConditions mappings posRow with _ | ⟨c, rest⟩
  · have hcfg : findMatchesForPosition mappings posRow df =
        { position_row := posRow, interviewIdx := [], match_score := 0,
          match_details := .noConditions, matched := false } := by
      rw [findMatchesForPosition]
      simp [hc]
    have hfacc : fastCandidateIndices mappings (buildIndices mappings df []) posRow =
        none := by
      rw [fastCandidateIndices, hceq, hc]
      rfl
    have hfast : matchSinglePositionFast mappings (buildIndices mappings df [])
        posRow df =
        Except.ok { position_row := posRow, interviewIdx := ∅,
                    interview_rows := [], match_score := 0,
                    matched := false } := by
      rw [matchSinglePositionFast, hfacc]
    rw [hcfg, hfast]
    exact ⟨rfl, by simp [Except.map]⟩
  · -- at least one active condition
    have hcondprops : ∀ q ∈ c :: rest, q.2 ≠ "" ∧ q.2 ≠ "nan" ∧
        ∃ pc, (pc, q.1) ∈ mappings := by
      intro q hq
      exact fastConditions_mem mappings posRow q (by rw [hceq, hc]; exact hq)
    have hpres : ∀ q ∈ c :: rest,
        (alistGet? (buildIndices mappings df []) q.1).isSome := by
      intro q hq
      obtain ⟨_, _, pc, hpc⟩ := hcondprops q hq
      have : alistGet? (buildIndices mappings df []) q.1 =
          some (buildColIndex df q.1) := by
        rw [buildIndices_get]
        rw [if_pos ⟨(pc, q.1), hpc, rfl, hcols (pc, q.1) hpc⟩]
      rw [this]
      rfl
    have hlkmem : ∀ q ∈ c :: rest, ∀ j,
        j ∈ lkSet (buildIndices mappings df []) q ↔
          j < df.rows.length ∧ ((df.rows.getD j []).cell q.1).astypeStr = q.2 := by
      intro q hq j
      obtain ⟨hv1, hv2, pc, hpc⟩ := hcondprops q hq
      exact lkSet_mem mappings df hcols hcand q pc hpc hv1 hv2 j
    have hS : fastCandidateIndices mappings (buildIndices mappings df []) posRow =
        some (rest.foldl (fun t q => t ∩ lkSet (buildIndices mappings df []) q)
          (lkSet (buildIndices mappings df []) c)) := by
      rw [fastCandidateIndices, hceq, hc]
      exact fastAccum_none (buildIndices mappings df []) c rest hpres
    have hSmem : ∀ j, j ∈ (rest.foldl
        (fun t q => t ∩ lkSet (buildIndices mappings df []) q)
        (lkSet (buildIndices mappings df []) c)) ↔
        j < df.rows.length ∧ ∀ q ∈ c :: rest,
          ((df.rows.getD j []).cell q.1).astypeStr = q.2 := by
      intro j
      rw [mem_foldl_inter]
      constructor
      · rintro ⟨hjc, hjrest⟩
        have h1 := (hlkmem c (List.mem_cons_self c rest) j).mp hjc
        refine ⟨h1.1, fun q hq => ?_⟩
        rcases List.mem_cons.mp hq with rfl | hq'
        · exact h1.2
        · exact ((hlkmem q hq j).mp (hjrest q hq')).2
      · rintro ⟨hj, hall⟩
        refine ⟨(hlkmem c (List.mem_cons_self c rest) j).mpr
          ⟨hj, hall c (List.mem_cons_self c rest)⟩, fun q hq => ?_⟩
        exact (hlkmem q (List.mem_cons_of_mem c hq) j).mpr
          ⟨hj, hall q (List.mem_cons_of_mem c hq)⟩
    have hrange : ∀ i ∈ (rest.foldl
        (fun t q => t ∩ lkSet (buildIndices mappings df []) q)
        (lkSet (buildIndices mappings df []) c)), i < df.rows.length := by
      intro i hi
      exact ((hSmem i).mp hi).1
    have hcolsconds : ∀ q ∈ c :: rest, df.cols.contains q.1 = true := by
      intro q hq
      obtain ⟨_, _, pc, hpc⟩ := hcondprops q hq
      exact hcols (pc, q.1) hpc
    have hidxmem : ∀ j, j ∈ (List.range df.rows.length).filter
        (fun i => rowPassesAll df.cols (c :: rest) (df.rows.getD i [])) ↔
        j < df.rows.length ∧ ∀ q ∈ c :: rest,
          ((df.rows.getD j []).cell q.1).astypeStr = q.2 := by
      intro j
      rw [List.mem_filter, List.mem_range]
      constructor
      · rintro ⟨hj, hp⟩
        exact ⟨hj, (rowPassesAll_iff df.cols (c :: rest) _ hcolsconds).mp hp⟩
      · rintro ⟨hj, hp⟩
        exact ⟨hj, (rowPassesAll_iff df.cols (c :: rest) _ hcolsconds).mpr hp⟩
    have hsets : ((List.range df.rows.length).filter
        (fun i => rowPassesAll df.cols (c :: rest) (df.rows.getD i []))).toFinset =
        (rest.foldl (fun t q => t ∩ lkSet (buildIndices mappings df []) q)
          (lkSet (buildIndices mappings df []) c)) := by
      apply Finset.ext
      intro j
      rw [List.mem_toFinset, hidxmem j, hSmem j]
    have hcfg : findMatchesForPosition mappings posRow df =
        (if ((List.range df.rows.length).filter
            (fun i => rowPassesAll df.cols (c :: rest) (df.rows.getD i []))) = [] then
          { position_row := posRow, interviewIdx := [], match_score := 0,
            match_details := .noMatch (c :: rest).length (c :: rest),
            matched := false }
        else
          { position_row := posRow,
            interviewIdx := (List.range df.rows.length).filter
              (fun i => rowPassesAll df.cols (c :: rest) (df.rows.getD i [])),
            match_score := 1, match_details := .exactDetails (c :: rest),
            matched := true }) := by
      rw [findMatchesForPosition]
      simp only [hc]
      rw [if_neg (by simp)]
    have hfast : matchSinglePositionFast mappings (buildIndices mappings df [])
        posRow df =
        (if (rest.foldl (fun t q => t ∩ lkSet (buildIndices mappings df []) q)
            (lkSet (buildIndices mappings df []) c)) = ∅ then
          Except.ok { position_row := posRow, interviewIdx := ∅,
                      interview_rows := [], match_score := 0,
                      matched := false }
        else if ∀ i ∈ (rest.foldl
            (fun t q => t ∩ lkSet (buildIndices mappings df []) q)
            (lkSet (buildIndices mappings df []) c)), i < df.rows.length then
          Except.ok { position_row := posRow,
                      interviewIdx := (rest.foldl
                        (fun t q => t ∩ lkSet (buildIndices mappings df []) q)
                        (lkSet (buildIndices mappings df []) c)),
                      interview_rows := ((List.range df.rows.length).filter
                        (fun i => i ∈ (rest.foldl
                          (fun t q => t ∩ lkSet (buildIndices mappings df []) q)
                          (lkSet (buildIndices mappings df []) c)))).map
                        (fun i => df.rows.getD i []),
                      match_score := 1, matched := true }
        else Except.error FastError.indexError) := by
      rw [matchSinglePositionFast, hS]
    by_cases hempty : (rest.foldl
        (fun t q => t ∩ lkSet (buildIndices mappings df []) q)
        (lkSet (buildIndices mappings df []) c)) = ∅
    · have hnil : ((List.range df.rows.length).filter
          (fun i => rowPassesAll df.cols (c :: rest) (df.rows.getD i []))) = [] := by
        rw [← List.toFinset_eq_empty_iff, hsets]
        exact hempty
      rw [hcfg, hfast, if_pos hempty, if_pos hnil]
      exact ⟨rfl, by simp [Except.map]⟩
    · have hnotnil : ((List.range df.rows.length).filter
          (fun i => rowPassesAll df.cols (c :: rest) (df.rows.getD i []))) ≠ [] := by
        intro hnil
        rw [← List.toFinset_eq_empty_iff, hsets] at hnil
        exact hempty hnil
      rw [hcfg, hfast, if_neg hempty, if_pos hrange, if_neg hnotnil]
      refine ⟨rfl, ?_⟩
      simp only [Except.map]
      rw [hsets]

theorem C1_index_matches_direct_filter_amended_witness :
    Except.map FastMatchResult.matched
        (matchSinglePositionFast [("p", "c")] (buildIndices [("p", "c")] witDf2 [])
          [("p", Cell.str "A")] witDf2) =
      Except.ok (findMatchesForPosition [("p", "c")] [("p", Cell.str "A")]
        witDf2).matched ∧
    Except.map FastMatchResult.interviewIdx
        (matchSinglePositionFast [("p", "c")] (buildIndices [("p", "c")] witDf2 [])
          [("p", Cell.str "A")] witDf2) =
      Except.ok (findMatchesForPosition [("p", "c")] [("p", Cell.str "A")]
        witDf2).interviewIdx.toFinset := by
  have hpos : posRowClean [("p", "c")] [("p", Cell.str "A")] := by
    intro pi hpi cc hget
    have hpi' : pi = ("p", "c") := List.mem_singleton.mp hpi
    subst hpi'
    have h1 : some (Cell.str "A") = some cc := by
      simpa [Row.get?, alistGet?] using hget
    right
    exact ⟨"A", (Option.some_inj.mp h1).symm, by decide, by decide⟩
  have hcand : candClean [("p", "c")] witDf2 := by
    intro r hr pi hpi
    have hpi' : pi = ("p", "c") := List.mem_singleton.mp hpi
    subst hpi'
    have hr' : r = [("c", Cell.str "B")] := by
      simpa [witDf2] using hr
    subst hr'
    right
    exact ⟨"B", by decide, by decide⟩
  exact C1_index_matches_direct_filter_amended [("p", "c")] [("p", Cell.str "A")]
    witDf2 hpos hcand (by decide)

end ExcelQuery
